import Mathlib

/-!
Verification development for the meeting-transcript analysis pipeline
(backend/src/agents of the repository): a shallow embedding of the
transcript normalization engine (parser.py) and of the four-stage
LangGraph pipeline (graph.py, state.py, nodes/), with theorems about
the properties stated in the specification.

Modelling conventions:
* Python `str` is modelled as Lean `String`, processed through its
  character list (`String.data`); Python string slicing, `strip`,
  `split("\n")` and `"\n".join` are modelled by explicit list functions.
* Python `\s` / `str.strip()` whitespace is modelled by the ASCII
  whitespace characters (space, tab, newline, carriage return, vertical
  tab, form feed); `\d` by the ASCII digits; `str.lower` by
  `Char.toLower`.
* The four regular expressions of `PATTERNS` (applied with `re.match`,
  i.e. anchored at the start of the line) are modelled by deterministic
  matchers that reproduce the regex backtracking behaviour on the
  newline-free lines produced by the line splitter.
* `json.loads` (a stdlib collaborator outside the repository) is an
  explicit parameter `loads` of the JSON-consuming stages; the LLM
  collaborator (`llm_service.chat`) is an explicit parameter returning
  `Except String String` (exception message or response text).
-/

namespace MeetingAnalysis

/-- ASCII whitespace, modelling Python `str.strip` / regex `\s`. -/
def pyIsSpace (c : Char) : Bool :=
  c = ' ' || c = '\t' || c = '\n' || c = '\r' || c = '\x0b' || c = '\x0c'

/-- ASCII digit, modelling regex `\d`. -/
def isDigitC (c : Char) : Bool :=
  '0' ≤ c && c ≤ '9'

/-- Remove trailing whitespace (Python `str.rstrip`). -/
def rstripChars (cs : List Char) : List Char :=
  (cs.reverse.dropWhile pyIsSpace).reverse

/-- Remove leading and trailing whitespace (Python `str.strip`). -/
def stripChars (cs : List Char) : List Char :=
  rstripChars (cs.dropWhile pyIsSpace)

/-- Python `s.split("\n")`: split a character list at every newline;
the result always has at least one (possibly empty) piece. -/
def splitNL : List Char → List (List Char)
  | [] => [[]]
  | c :: rest =>
    if c = '\n' then [] :: splitNL rest
    else
      match splitNL rest with
      | [] => [[c]]
      | l :: ls => (c :: l) :: ls

/-- Split a character list at the first occurrence of `c`
(`none` when `c` does not occur). -/
def splitAtFirst (c : Char) : List Char → Option (List Char × List Char)
  | [] => none
  | a :: as =>
    if a = c then some ([], as)
    else (splitAtFirst c as).map (fun pr => (a :: pr.1, pr.2))

/-- One parsed transcript line: the dictionary returned by
`parse_transcript_line` in parser.py. -/
structure ParsedLine where
  timestamp : String
  speaker : String
  text : String
deriving DecidableEq, Repr

/-- One transcript segment (`TranscriptSegment` in models/schemas.py). -/
structure TranscriptSegment where
  speaker : String
  timestamp : String
  text : String
deriving DecidableEq, Repr

/-- Consume one expected character. -/
def expectChar (c : Char) (cs : List Char) : Option (List Char) :=
  match cs with
  | [] => none
  | a :: rest => if a = c then some rest else none

/-- Consume two digits (regex `\d{2}`). -/
def expect2Digits (cs : List Char) : Option (Char × Char × List Char) :=
  match cs with
  | a :: b :: rest => if isDigitC a && isDigitC b then some (a, b, rest) else none
  | _ => none

/-- The optional-seconds tail of the time regex, `(?::\d{2})?`,
in continuation-passing style: the regex first tries to consume
`:` and two digits (greedy), then falls back to consuming nothing. -/
def matchSecsThen (t : List Char) (cs : List Char)
    (k : List Char → List Char → Option α) : Option α :=
  (match expectChar ':' cs with
   | none => none
   | some cs1 =>
     match expect2Digits cs1 with
     | none => none
     | some (a, b, rest) => k (t ++ [':', a, b]) rest) <|> k t cs

/-- The mandatory minutes part of the time regex, `:\d{2}`, followed by
the optional seconds. -/
def matchMinutesThen (h : List Char) (cs : List Char)
    (k : List Char → List Char → Option α) : Option α :=
  match expectChar ':' cs with
  | none => none
  | some cs1 =>
    match expect2Digits cs1 with
    | none => none
    | some (a, b, rest) => matchSecsThen (h ++ [':', a, b]) rest k

/-- The time regex `\d{1,2}:\d{2}(?::\d{2})?` in continuation-passing
style: the hour is greedy (two digits preferred over one, with
backtracking through the continuation), mirroring `\d{1,2}`. -/
def matchTimeThen (cs : List Char) (k : List Char → List Char → Option α) : Option α :=
  match cs with
  | [] => none
  | a :: rest =>
    if isDigitC a then
      match rest with
      | [] => matchMinutesThen [a] [] k
      | b :: rest2 =>
        if isDigitC b then
          matchMinutesThen [a, b] rest2 k <|> matchMinutesThen [a] (b :: rest2) k
        else matchMinutesThen [a] rest k
    else none

/-- The common suffix `\s*([^:]+):\s*(.+)` of the first two patterns:
the speaker capture is everything before the first colon (at least one
character required), the text capture everything after it (at least one
character required); both are stripped by the caller in parser.py, so
the stripped values are returned directly. -/
def matchSpeakerText (cs : List Char) : Option (String × String) :=
  match splitAtFirst ':' cs with
  | none => none
  | some (pre, post) =>
    if pre = [] then none
    else if post = [] then none
    else some (String.mk (stripChars pre), String.mk (stripChars post))

/-- Pattern `bracket_timestamp`:
`\[(\d{1,2}:\d{2}(?::\d{2})?)\]\s*([^:]+):\s*(.+)`. -/
def matchBracket (cs : List Char) : Option ParsedLine :=
  match expectChar '[' cs with
  | none => none
  | some rest =>
    matchTimeThen rest (fun t rest2 =>
      match expectChar ']' rest2 with
      | none => none
      | some rest3 =>
        (matchSpeakerText rest3).map (fun pr => ⟨String.mk t, pr.1, pr.2⟩))

/-- The delimiter characters of the `dash_timestamp` pattern. The
character class in parser.py is literally `[-â€“]` (an ASCII hyphen
followed by U+00E2, U+20AC, U+201C — a mojibake double-encoding of what
was presumably intended as an en-dash), so exactly these four
characters are accepted; the en-dash and em-dash themselves are not. -/
def isDashChar (c : Char) : Bool :=
  c = '-' || c = 'â' || c = '€' || c = '“'

/-- Pattern `dash_timestamp`:
`(\d{1,2}:\d{2}(?::\d{2})?)\s*[-â€“]\s*([^:]+):\s*(.+)`. -/
def matchDash (cs : List Char) : Option ParsedLine :=
  matchTimeThen cs (fun t rest =>
    match rest.dropWhile pyIsSpace with
    | [] => none
    | d :: rest2 =>
      if isDashChar d then
        (matchSpeakerText rest2).map (fun pr => ⟨String.mk t, pr.1, pr.2⟩)
      else none)

/-- Pattern `paren_timestamp`:
`([^(]+)\s*\((\d{1,2}:\d{2}(?::\d{2})?)\):\s*(.+)`. The speaker capture
`[^(]+` is everything before the first `(` — it cannot cross a `(`, so
the time must follow the first parenthesis — and, unlike the other
patterns, it may contain colons. -/
def matchParen (cs : List Char) : Option ParsedLine :=
  match splitAtFirst '(' cs with
  | none => none
  | some (pre, post) =>
    if pre = [] then none
    else
      matchTimeThen post (fun t rest =>
        match expectChar ')' rest with
        | none => none
        | some rest1 =>
          match expectChar ':' rest1 with
          | none => none
          | some rest2 =>
            if rest2 = [] then none
            else some ⟨String.mk t, String.mk (stripChars pre), String.mk (stripChars rest2)⟩)

/-- Character class `[a-zA-Z\s]` of the `simple_speaker` pattern. -/
def isSimpleNameChar (c : Char) : Bool :=
  ('a' ≤ c && c ≤ 'z') || ('A' ≤ c && c ≤ 'Z') || pyIsSpace c

/-- Pattern `simple_speaker`: `^([A-Z][a-zA-Z\s]+):\s*(.+)`; the
timestamp defaults to `"00:00"` in parser.py. -/
def matchSimple (cs : List Char) : Option ParsedLine :=
  match cs with
  | [] => none
  | a :: rest =>
    if 'A' ≤ a && a ≤ 'Z' then
      let run := rest.takeWhile isSimpleNameChar
      match expectChar ':' (rest.dropWhile isSimpleNameChar) with
      | none => none
      | some rest3 =>
        if run = [] then none
        else if rest3 = [] then none
        else some ⟨("00:00"), String.mk (stripChars (a :: run)), String.mk (stripChars rest3)⟩
    else none

/-- `parse_transcript_line` in parser.py: strip the line, reject blank
lines, then try the four patterns in the fixed `PATTERNS` order
(bracket, dash, paren, simple); first match wins. -/
def parse_transcript_line (line : String) : Option ParsedLine :=
  let l := stripChars line.data
  if l = [] then none
  else matchBracket l <|> matchDash l <|> matchParen l <|> matchSimple l

/-- The scanning loop of `parse_transcript` in parser.py, over the list
of lines, carrying the segments built so far (in reverse), the current
speaker and the current timestamp. A matched line starts a new segment
and updates the carries; a non-blank unmatched line is appended (with a
space) to the last segment's text, or starts an initial segment from
the carries when no segment exists yet; blank lines are skipped. -/
def buildSegs : List String → List TranscriptSegment → String → String → List TranscriptSegment
  | [], acc, _, _ => acc.reverse
  | line :: rest, acc, curSp, curTs =>
    match parse_transcript_line line with
    | some p => buildSegs rest (⟨p.speaker, p.timestamp, p.text⟩ :: acc) p.speaker p.timestamp
    | none =>
      if stripChars line.data = [] then buildSegs rest acc curSp curTs
      else
        match acc with
        | last :: others =>
          buildSegs rest
            ({ last with text := last.text ++ (" ") ++ String.mk (stripChars line.data) } :: others)
            curSp curTs
        | [] =>
          buildSegs rest [⟨curSp, curTs, String.mk (stripChars line.data)⟩] curSp curTs

/-- `parse_transcript` in parser.py: split the raw transcript on
newlines and scan, starting from the `"Unknown"` / `"00:00"`
sentinels. -/
def parse_transcript (raw : String) : List TranscriptSegment :=
  buildSegs ((splitNL raw.data).map String.mk) [] ("Unknown") ("00:00")

/-- One canonical line `[timestamp] speaker: text` of
`format_parsed_transcript`. -/
def formatLineChars (seg : TranscriptSegment) : List Char :=
  '[' :: seg.timestamp.data ++ ']' :: ' ' :: seg.speaker.data ++ ':' :: ' ' :: seg.text.data

/-- Python `"\n".join`. -/
def joinNL : List (List Char) → List Char
  | [] => []
  | [l] => l
  | l :: rest => l ++ '\n' :: joinNL rest

/-- `format_parsed_transcript` in parser.py: one canonical line per
segment, joined with newlines. -/
def format_parsed_transcript (segs : List TranscriptSegment) : String :=
  String.mk (joinNL (segs.map formatLineChars))

/-- `extract_participants` in parser.py: the set of speakers that are
non-empty and not the `"Unknown"` sentinel (Python builds a `set` and
returns `sorted(list(...))`; the set is modelled by deduplication and
the sort by insertion sort, which agree with Python's stable sort on a
duplicate-free collection). -/
def extract_participants (segs : List TranscriptSegment) : List String :=
  List.insertionSort (fun a b => a ≤ b)
    (((segs.map (fun s => s.speaker)).filter
      (fun s => !(s == ("")) && !(s == ("Unknown")))).dedup)

/-- Recognizer for the time format `\d{1,2}:\d{2}(?::\d{2})?` matched
in full: the four possible shapes `H:MM`, `HH:MM`, `H:MM:SS`,
`HH:MM:SS`. -/
def isTimeB (t : List Char) : Bool :=
  match t with
  | [h1, c1, m1, m2] =>
    isDigitC h1 && (c1 = ':') && isDigitC m1 && isDigitC m2
  | [h1, h2, c1, m1, m2] =>
    isDigitC h1 && isDigitC h2 && (c1 = ':') && isDigitC m1 && isDigitC m2
  | [h1, c1, m1, m2, c2, s1, s2] =>
    isDigitC h1 && (c1 = ':') && isDigitC m1 && isDigitC m2 &&
      (c2 = ':') && isDigitC s1 && isDigitC s2
  | [h1, h2, c1, m1, m2, c2, s1, s2] =>
    isDigitC h1 && isDigitC h2 && (c1 = ':') && isDigitC m1 && isDigitC m2 &&
      (c2 = ':') && isDigitC s1 && isDigitC s2
  | _ => false

/-- Invariant of every segment produced by the Segment Builder: the
timestamp is in time format or the `"00:00"` sentinel, speaker and text
are whitespace-stripped and newline-free, and the text is non-empty. -/
def GoodSeg (g : TranscriptSegment) : Prop :=
  isTimeB g.timestamp.data = true ∧
  stripChars g.speaker.data = g.speaker.data ∧
  stripChars g.text.data = g.text.data ∧
  g.text.data ≠ [] ∧
  ('\n') ∉ g.speaker.data ∧
  ('\n') ∉ g.text.data

/-! ## Pipeline data model (state.py, models/schemas.py) -/

/-- `Decision` in models/schemas.py: `decision` is required, the other
fields default to `None`. -/
structure Decision where
  decision : String
  made_by : Option String
  context : Option String
  related_discussion : Option String
deriving DecidableEq, Repr

/-- `ActionItem` in models/schemas.py: `task` is required, the other
fields default to `None`. -/
structure ActionItem where
  task : String
  owner : Option String
  deadline : Option String
  priority : Option String
  context : Option String
deriving DecidableEq, Repr

/-- `AgentState` in state.py. `analyze` initializes every key, so the
state is modelled as a record; `Optional[str]` fields are `Option
String` (`none` = Python `None` / key absent, which the nodes treat
identically through falsiness checks). -/
structure AgentState where
  meeting_id : String
  meeting_title : String
  raw_transcript : String
  parsed_transcript : Option String
  participants : List String
  summary : Option String
  key_topics : List String
  decisions : List Decision
  action_items : List ActionItem
  error : Option String
deriving DecidableEq, Repr

/-- A partial state update returned by a node: a sparse set of
field/value pairs (outer `none` = key absent from the returned dict).
Nodes never write the three input fields, so those are not present. -/
structure PartialUpdate where
  parsed_transcript : Option (Option String) := none
  participants : Option (List String) := none
  summary : Option (Option String) := none
  key_topics : Option (List String) := none
  decisions : Option (List Decision) := none
  action_items : Option (List ActionItem) := none
  error : Option (Option String) := none
deriving DecidableEq, Repr

/-- LangGraph's merge of a node's partial update into the running
state: whole-value replacement per key present in the update, all other
keys untouched. -/
def applyUpdate (st : AgentState) (u : PartialUpdate) : AgentState :=
  { st with
    parsed_transcript := u.parsed_transcript.getD st.parsed_transcript
    participants := u.participants.getD st.participants
    summary := u.summary.getD st.summary
    key_topics := u.key_topics.getD st.key_topics
    decisions := u.decisions.getD st.decisions
    action_items := u.action_items.getD st.action_items
    error := u.error.getD st.error }

/-! ## Resilient structured-output extraction (decisions.py, actions.py) -/

/-- Index of the first occurrence of `c` (Python `str.find`, with
`none` for `-1`). -/
def findIdx (c : Char) : List Char → Option Nat
  | [] => none
  | a :: as => if a = c then some 0 else (findIdx c as).map (fun i => i + 1)

/-- Index of the last occurrence of `c` (Python `str.rfind`, with
`none` for `-1`). -/
def rfindIdx (c : Char) (cs : List Char) : Option Nat :=
  (findIdx c cs.reverse).map (fun i => cs.length - 1 - i)

/-- `_extract_json_array` in decisions.py / actions.py: the substring
from the first `[` to the last `]` inclusive, provided both exist and
the `]` comes strictly after the `[`. -/
def extract_json_array (text : String) : Option String :=
  match findIdx '[' text.data, rfindIdx ']' text.data with
  | some s, some e =>
    if s < e then some (String.mk ((text.data.drop s).take (e + 1 - s))) else none
  | _, _ => none

/-- JSON values, as produced by the stdlib collaborator `json.loads`
(which lives outside this repository and is passed in as a `loads`
parameter below). -/
inductive JsonVal where
  | null
  | bool (b : Bool)
  | num (n : Int)
  | str (s : String)
  | arr (items : List JsonVal)
  | obj (fields : List (String × JsonVal))
deriving Repr

/-- Dictionary key lookup (`none` = key absent). -/
def jGet (m : List (String × JsonVal)) (k : String) : Option JsonVal :=
  (m.find? (fun p => p.1 == k)).map (fun p => p.2)

/-- An `Optional[str]` model field built from a JSON dict entry:
an absent key or JSON `null` become `None`; a JSON string is kept; any
other value fails pydantic validation (outer `none`), which raises in
the node's parsing loop. -/
def asOptStr : Option JsonVal → Option (Option String)
  | none => some none
  | some JsonVal.null => some none
  | some (JsonVal.str s) => some (some s)
  | some _ => none

/-- `Decision(**item)` construction in `_parse_decisions`: the required
`decision` field defaults to `""` via `item.get("decision", "")` and
must be a string; the optional fields go through `asOptStr`. `none`
models a pydantic validation error. -/
def mkDecision (m : List (String × JsonVal)) : Option Decision :=
  match (jGet m ("decision")).getD (JsonVal.str ("")) with
  | JsonVal.str d =>
    match asOptStr (jGet m ("made_by")), asOptStr (jGet m ("context")),
        asOptStr (jGet m ("related_discussion")) with
    | some mb, some cx, some rd => some ⟨d, mb, cx, rd⟩
    | _, _, _ => none
  | _ => none

/-- The item loop of `_parse_decisions`: only dict items containing the
key `"decision"` are converted; a validation error raises out of the
loop and the broad `except` keeps the items accumulated so far. -/
def collectDecisions : List JsonVal → List Decision
  | [] => []
  | item :: rest =>
    match item with
    | JsonVal.obj m =>
      if (jGet m ("decision")).isSome then
        match mkDecision m with
        | some d => d :: collectDecisions rest
        | none => []
      else collectDecisions rest
    | _ => collectDecisions rest

/-- `_parse_decisions` in decisions.py, with `json.loads` passed in as
`loads`. No extractable array, a JSON decode error, or a non-array
top-level value (whose iteration yields no dict items, or raises and is
caught) all produce zero decisions. -/
def parse_decisions (loads : String → Option JsonVal) (response : String) : List Decision :=
  match extract_json_array response with
  | none => []
  | some js =>
    match loads js with
    | some (JsonVal.arr items) => collectDecisions items
    | _ => []

/-- `ActionItem(**item)` construction in `_parse_action_items`,
analogous to `mkDecision` with required field `task`. -/
def mkActionItem (m : List (String × JsonVal)) : Option ActionItem :=
  match (jGet m ("task")).getD (JsonVal.str ("")) with
  | JsonVal.str t =>
    match asOptStr (jGet m ("owner")), asOptStr (jGet m ("deadline")),
        asOptStr (jGet m ("priority")), asOptStr (jGet m ("context")) with
    | some ow, some dl, some pr, some cx => some ⟨t, ow, dl, pr, cx⟩
    | _, _, _, _ => none
  | _ => none

/-- The item loop of `_parse_action_items`: dict items containing the
key `"task"`. -/
def collectActionItems : List JsonVal → List ActionItem
  | [] => []
  | item :: rest =>
    match item with
    | JsonVal.obj m =>
      if (jGet m ("task")).isSome then
        match mkActionItem m with
        | some a => a :: collectActionItems rest
        | none => []
      else collectActionItems rest
    | _ => collectActionItems rest

/-- `_parse_action_items` in actions.py. -/
def parse_action_items (loads : String → Option JsonVal) (response : String) : List ActionItem :=
  match extract_json_array response with
  | none => []
  | some js =>
    match loads js with
    | some (JsonVal.arr items) => collectActionItems items
    | _ => []

/-! ## Key-topic extraction (summarizer.py) -/

/-- Whether `pat` starts `s` (on lowered characters, via `==`). -/
def startsWithL : List Char → List Char → Bool
  | [], _ => true
  | _ :: _, [] => false
  | a :: as, b :: bs => a == b && startsWithL as bs

/-- Python `pat in s` substring containment. -/
def containsL (s pat : List Char) : Bool :=
  startsWithL pat s ||
    match s with
    | [] => false
    | _ :: rest => containsL rest pat

/-- The characters stripped by `line.lstrip("-•* ")`. -/
def isBulletChar (c : Char) : Bool :=
  c = '-' || c = '•' || c = '*' || c = ' '

/-- The line loop of `_extract_key_topics` in summarizer.py, carrying
the `in_topics_section` flag; a `#`-heading inside the topics section
breaks out of the loop. -/
def topicsLoop : List (List Char) → Bool → List String
  | [], _ => []
  | line :: rest, inSec =>
    let l := stripChars line
    let low := l.map Char.toLower
    if containsL low (("key topics").data) || containsL low (("topics discussed").data) then
      topicsLoop rest true
    else if inSec && (match l with | '#' :: _ => true | _ => false) then []
    else if inSec &&
        (match l with
         | c :: _ => c = '-' || c = '•' || c = '*'
         | [] => false) then
      let topic := stripChars (l.dropWhile isBulletChar)
      if topic = [] then topicsLoop rest inSec
      else String.mk topic :: topicsLoop rest inSec
    else topicsLoop rest inSec

/-- `_extract_key_topics` in summarizer.py. -/
def extract_key_topics (summary_text : String) : List String :=
  topicsLoop (splitNL summary_text.data) false

/-! ## Prompts and messages (summarizer.py, decisions.py, actions.py) -/

/-- Python `[:15000]` slicing (first `n` characters). -/
def pySlice (s : String) (n : Nat) : String :=
  String.mk (s.data.take n)

/-- Python `", ".join`. -/
def joinComma : List String → String
  | [] => ("")
  | [s] => s
  | s :: rest => s ++ (", ") ++ joinComma rest

/-- The transcript each generation-backed stage analyzes:
`state.get("parsed_transcript") or state["raw_transcript"]` — the raw
transcript whenever `parsed_transcript` is falsy (`None`/absent or the
empty string). -/
def chosenTranscript (st : AgentState) : String :=
  match st.parsed_transcript with
  | none => st.raw_transcript
  | some s => if s = ("") then st.raw_transcript else s

/-- `", ".join(state.get("participants", [])) or "Not specified"`. -/
def participantsField (st : AgentState) : String :=
  let j := joinComma st.participants
  if j = ("") then ("Not specified") else j

/-- A chat message sent to the LLM collaborator. -/
inductive ChatMessage where
  | system (content : String)
  | human (content : String)
deriving DecidableEq, Repr

def SUMMARIZER_SYSTEM_PROMPT : String :=
  "You are an expert meeting analyst. Your task is to create a concise, \nhigh-level summary of a meeting transcript.\n\nFocus on:\n1. The main purpose and objectives of the meeting\n2. Key topics discussed\n3. Important points raised by participants\n4. Overall outcome or conclusion\n\nGuidelines:\n- Be concise but comprehensive\n- Use bullet points for key topics\n- Mention participant names when relevant\n- Keep the summary to 3-5 paragraphs maximum\n- Identify 3-7 key topics discussed\n\nOutput format:\n## Summary\n[Your concise summary paragraph]\n\n## Key Topics\n- Topic 1\n- Topic 2\n- Topic 3\n..."

/-- `SUMMARIZER_USER_PROMPT.format(title=..., participants=..., transcript=...)`. -/
def summarizer_user_message (title participants transcript : String) : String :=
  "Please analyze and summarize the following meeting transcript:\n\nMeeting Title: " ++
    title ++ "\nParticipants: " ++ participants ++ "\n\n--- TRANSCRIPT ---\n" ++
    transcript ++ "\n--- END TRANSCRIPT ---\n\nProvide a high-level summary and extract the key topics discussed."

def DECISION_EXTRACTOR_SYSTEM_PROMPT : String :=
  "You are an expert at analyzing meeting transcripts to identify \nkey decisions and agreements made during discussions.\n\nYour task is to extract:\n1. Final decisions that were made\n2. Agreements reached between participants\n3. Key pivots or direction changes\n4. Approvals or rejections of proposals\n\nFor each decision, identify:\n- The decision itself (what was decided)\n- Who made or announced the decision (if mentioned)\n- The context or reasoning behind it\n- Related discussion points\n\nOutput your findings as a JSON array with this structure:\n[\n    \x7b\n        \"decision\": \"Description of the decision\",\n        \"made_by\": \"Person who made/announced it or null\",\n        \"context\": \"Brief context or reasoning\",\n        \"related_discussion\": \"Related discussion points\"\n    \x7d\n]\n\nGuidelines:\n- Only include actual decisions, not proposals or suggestions\n- Be specific and factual\n- If no clear decisions were made, return an empty array []\n- Maximum 10 decisions per meeting"

/-- `DECISION_EXTRACTOR_USER_PROMPT.format(...)`. -/
def decisions_user_message (title participants transcript : String) : String :=
  "Analyze the following meeting transcript and extract all key decisions made:\n\nMeeting Title: " ++
    title ++ "\nParticipants: " ++ participants ++ "\n\n--- TRANSCRIPT ---\n" ++
    transcript ++ "\n--- END TRANSCRIPT ---\n\nExtract the decisions as a JSON array."

def ACTION_ITEM_SYSTEM_PROMPT : String :=
  "You are an expert at analyzing meeting transcripts to identify \naction items, tasks, and assignments.\n\nYour task is to extract:\n1. Tasks that were assigned to specific people\n2. Follow-up actions mentioned\n3. Commitments made by participants\n4. Deadlines or timelines mentioned\n\nFor each action item, identify:\n- The specific task or action (what needs to be done)\n- The owner (who is responsible - use exact names from transcript)\n- Any deadline mentioned\n- Priority (high/medium/low based on urgency/importance)\n- Context from the discussion\n\nOutput your findings as a JSON array with this structure:\n[\n    \x7b\n        \"task\": \"Description of the task\",\n        \"owner\": \"Person responsible or null\",\n        \"deadline\": \"Deadline if mentioned or null\",\n        \"priority\": \"high/medium/low or null\",\n        \"context\": \"Brief context from discussion\"\n    \x7d\n]\n\nGuidelines:\n- Be specific about what needs to be done\n- Use exact participant names as owners\n- Only include items that are clearly tasks, not suggestions\n- Infer priority from language (ASAP = high, \"when you can\" = low)\n- If no clear action items, return an empty array []\n- Maximum 15 action items per meeting"

/-- `ACTION_ITEM_USER_PROMPT.format(...)`. -/
def actions_user_message (title participants transcript : String) : String :=
  "Analyze the following meeting transcript and extract all action items:\n\nMeeting Title: " ++
    title ++ "\nParticipants: " ++ participants ++ "\n\n--- TRANSCRIPT ---\n" ++
    transcript ++ "\n--- END TRANSCRIPT ---\n\nExtract the action items as a JSON array."

/-- The message list built by `summarizer_node` (transcript truncated
to its first 15000 characters). -/
def summarizer_messages (st : AgentState) : List ChatMessage :=
  [ChatMessage.system SUMMARIZER_SYSTEM_PROMPT,
   ChatMessage.human (summarizer_user_message st.meeting_title (participantsField st)
     (pySlice (chosenTranscript st) 15000))]

/-- The message list built by `decisions_node`. -/
def decisions_messages (st : AgentState) : List ChatMessage :=
  [ChatMessage.system DECISION_EXTRACTOR_SYSTEM_PROMPT,
   ChatMessage.human (decisions_user_message st.meeting_title (participantsField st)
     (pySlice (chosenTranscript st) 15000))]

/-- The message list built by `actions_node`. -/
def actions_messages (st : AgentState) : List ChatMessage :=
  [ChatMessage.system ACTION_ITEM_SYSTEM_PROMPT,
   ChatMessage.human (actions_user_message st.meeting_title (participantsField st)
     (pySlice (chosenTranscript st) 15000))]

/-! ## The four stage nodes and the orchestrator (parser.py nodes,
graph.py) -/

/-- `parser_node` in parser.py. The `try` body is pure, so a failure
can only come from an exception outside the modelled computation; it is
represented by `exc = some message`. On failure the node returns
`error`, sets `parsed_transcript` to the *raw transcript* and
`participants` to `[]` (lines 204-210 of parser.py). -/
def parser_node (exc : Option String) (st : AgentState) : PartialUpdate :=
  match exc with
  | some e =>
    { error := some (some (("Failed to parse transcript: ") ++ e))
      parsed_transcript := some (some st.raw_transcript)
      participants := some [] }
  | none =>
    let segments := parse_transcript st.raw_transcript
    { parsed_transcript := some (some (format_parsed_transcript segments))
      participants := some (extract_participants segments) }

/-- `summarizer_node` in summarizer.py, with the LLM collaborator
passed in as `chat` (`Except.error` = any exception in the `try` body,
converted by the `except` branch). -/
def summarizer_node (chat : List ChatMessage → Except String String)
    (st : AgentState) : PartialUpdate :=
  match chat (summarizer_messages st) with
  | Except.ok response =>
    { summary := some (some response)
      key_topics := some (extract_key_topics response) }
  | Except.error e =>
    { error := some (some (("Failed to generate summary: ") ++ e))
      summary := some none
      key_topics := some [] }

/-- `decisions_node` in decisions.py. -/
def decisions_node (loads : String → Option JsonVal)
    (chat : List ChatMessage → Except String String)
    (st : AgentState) : PartialUpdate :=
  match chat (decisions_messages st) with
  | Except.ok response => { decisions := some (parse_decisions loads response) }
  | Except.error e =>
    { error := some (some (("Failed to extract decisions: ") ++ e))
      decisions := some [] }

/-- `actions_node` in actions.py. -/
def actions_node (loads : String → Option JsonVal)
    (chat : List ChatMessage → Except String String)
    (st : AgentState) : PartialUpdate :=
  match chat (actions_messages st) with
  | Except.ok response => { action_items := some (parse_action_items loads response) }
  | Except.error e =>
    { error := some (some (("Failed to extract action items: ") ++ e))
      action_items := some [] }

/-- The compiled linear graph of `create_analysis_graph` in graph.py:
parser → summarizer → decisions → actions, each node's partial update
merged into the state before the next node runs. -/
def execute (loads : String → Option JsonVal) (parseExc : Option String)
    (chatS chatD chatA : List ChatMessage → Except String String)
    (st0 : AgentState) : AgentState :=
  let s1 := applyUpdate st0 (parser_node parseExc st0)
  let s2 := applyUpdate s1 (summarizer_node chatS s1)
  let s3 := applyUpdate s2 (decisions_node loads chatD s2)
  applyUpdate s3 (actions_node loads chatA s3)

/-- The initial state built by `MeetingAnalyzer.analyze` in graph.py:
inputs set, every other field at its default. -/
def initialState (meeting_id meeting_title raw_transcript : String) : AgentState :=
  { meeting_id := meeting_id
    meeting_title := meeting_title
    raw_transcript := raw_transcript
    parsed_transcript := none
    participants := []
    summary := none
    key_topics := []
    decisions := []
    action_items := []
    error := none }

/-- `MeetingAnalyzer.analyze` in graph.py. -/
def analyze (loads : String → Option JsonVal) (parseExc : Option String)
    (chatS chatD chatA : List ChatMessage → Except String String)
    (meeting_id meeting_title raw_transcript : String) : AgentState :=
  execute loads parseExc chatS chatD chatA (initialState meeting_id meeting_title raw_transcript)

/-! ## General helper lemmas -/

theorem orElse_eq_some_cases {α : Type} {x y : Option α} {v : α}
    (h : (x <|> y) = some v) : x = some v ∨ (x = none ∧ y = some v) := by
  cases x with
  | none => exact Or.inr ⟨rfl, h⟩
  | some a => exact Or.inl h

theorem some_orElse_eq {α : Type} (a : α) (o : Option α) : (some a <|> o) = some a := rfl

theorem none_orElse_eq {α : Type} (o : Option α) : ((none : Option α) <|> o) = o := rfl

/-! ## Lemmas about stripping and splitting -/

theorem dropWhile_head_false {p : Char → Bool} {l : List Char} {a : Char} {t : List Char}
    (h : l.dropWhile p = a :: t) : p a = false := by
  induction l with
  | nil => simp at h
  | cons x xs ih =>
    rw [List.dropWhile_cons] at h
    cases hx : p x with
    | true => rw [hx] at h; simp at h; exact ih h
    | false => rw [hx] at h; simp at h; rw [← h.1]; exact hx

theorem mem_dropWhile_mem {p : Char → Bool} {l : List Char} {x : Char}
    (h : x ∈ l.dropWhile p) : x ∈ l := by
  induction l with
  | nil => simp at h
  | cons a as ih =>
    rw [List.dropWhile_cons] at h
    cases ha : p a with
    | true => rw [ha] at h; simp at h; exact List.mem_cons_of_mem a (ih h)
    | false => rw [ha] at h; simpa using h

theorem mem_takeWhile_sat {p : Char → Bool} {l : List Char} {x : Char}
    (h : x ∈ l.takeWhile p) : p x = true := by
  induction l with
  | nil => simp at h
  | cons a as ih =>
    rw [List.takeWhile_cons] at h
    cases ha : p a with
    | true =>
      rw [ha] at h; simp at h
      rcases h with h | h
      · rw [h]; exact ha
      · exact ih h
    | false => rw [ha] at h; simp at h

theorem mem_takeWhile_mem {p : Char → Bool} {l : List Char} {x : Char}
    (h : x ∈ l.takeWhile p) : x ∈ l := by
  induction l with
  | nil => simp at h
  | cons a as ih =>
    rw [List.takeWhile_cons] at h
    cases ha : p a with
    | true =>
      rw [ha] at h; simp at h
      rcases h with h | h
      · simp [h]
      · exact List.mem_cons_of_mem a (ih h)
    | false => rw [ha] at h; simp at h

theorem dropWhile_append_of_eq_nil {p : Char → Bool} {l : List Char} (r : List Char)
    (h : l.dropWhile p = []) : (l ++ r).dropWhile p = r.dropWhile p := by
  induction l with
  | nil => rfl
  | cons a as ih =>
    rw [List.dropWhile_cons] at h
    cases ha : p a with
    | true => rw [ha] at h; simp only [List.cons_append, List.dropWhile_cons, ha]; exact ih h
    | false => rw [ha] at h; simp at h

theorem dropWhile_append_of_eq_cons {p : Char → Bool} {l : List Char} {a : Char}
    {t : List Char} (r : List Char) (h : l.dropWhile p = a :: t) :
    (l ++ r).dropWhile p = a :: t ++ r := by
  induction l with
  | nil => simp at h
  | cons x xs ih =>
    rw [List.dropWhile_cons] at h
    cases hx : p x with
    | true => rw [hx] at h; simp only [List.cons_append, List.dropWhile_cons, hx]; exact ih h
    | false =>
      rw [hx] at h
      simp only [List.cons_append, List.dropWhile_cons, hx]
      simp at h ⊢
      exact ⟨h.1, by rw [h.2]⟩

theorem rstrip_concat_false {a : Char} {l : List Char} (h : pyIsSpace a = false) :
    rstripChars (l ++ [a]) = l ++ [a] := by
  unfold rstripChars
  rw [List.reverse_append]
  simp [List.dropWhile_cons, h]

theorem rstrip_concat_true {a : Char} {l : List Char} (h : pyIsSpace a = true) :
    rstripChars (l ++ [a]) = rstripChars l := by
  unfold rstripChars
  rw [List.reverse_append]
  simp [List.dropWhile_cons, h]

theorem rstrip_decomp (d : List Char) :
    ∃ ws, d = rstripChars d ++ ws ∧ ∀ x ∈ ws, pyIsSpace x = true := by
  have key : rstripChars d ++ (d.reverse.takeWhile pyIsSpace).reverse = d := by
    unfold rstripChars
    rw [← List.reverse_append, List.takeWhile_append_dropWhile, List.reverse_reverse]
  refine ⟨(d.reverse.takeWhile pyIsSpace).reverse, key.symm, ?_⟩
  intro x hx
  rw [List.mem_reverse] at hx
  exact mem_takeWhile_sat hx

theorem strip_head_false {cs : List Char} {a : Char} {t : List Char}
    (h : stripChars cs = a :: t) : pyIsSpace a = false := by
  unfold stripChars at h
  rcases rstrip_decomp (cs.dropWhile pyIsSpace) with ⟨ws, hd, -⟩
  rw [h] at hd
  exact dropWhile_head_false hd

theorem strip_last_false {cs : List Char} {l : List Char} {a : Char}
    (h : stripChars cs = l ++ [a]) : pyIsSpace a = false := by
  unfold stripChars rstripChars at h
  rw [List.reverse_eq_iff] at h
  rw [List.reverse_append] at h
  exact dropWhile_head_false h

theorem strip_noop {a b : Char} {m L : List Char} (hshape : a :: m = L ++ [b])
    (ha : pyIsSpace a = false) (hb : pyIsSpace b = false) :
    stripChars (a :: m) = a :: m := by
  unfold stripChars
  rw [List.dropWhile_cons, ha, if_neg Bool.false_ne_true, hshape]
  exact rstrip_concat_false hb

theorem strip_nil : stripChars [] = [] := rfl

theorem strip_idem (cs : List Char) : stripChars (stripChars cs) = stripChars cs := by
  cases h : stripChars cs with
  | nil => rfl
  | cons a t =>
    have ha := strip_head_false h
    rcases List.eq_nil_or_concat (a :: t) with hn | ⟨L, b, hLb⟩
    · exact absurd hn (by simp)
    · rw [List.concat_eq_append] at hLb
      have hb : pyIsSpace b = false := strip_last_false (by rw [h, hLb])
      exact strip_noop hLb ha hb

theorem strip_mem {cs : List Char} {x : Char} (h : x ∈ stripChars cs) : x ∈ cs := by
  unfold stripChars rstripChars at h
  rw [List.mem_reverse] at h
  have h2 := mem_dropWhile_mem h
  rw [List.mem_reverse] at h2
  exact mem_dropWhile_mem h2

theorem strip_cons_space {l : List Char} : stripChars (' ' :: l) = stripChars l := by
  unfold stripChars
  rw [List.dropWhile_cons]
  norm_num [pyIsSpace]

theorem strip_concat_space {l : List Char} {c : Char} (h : pyIsSpace c = true) :
    stripChars (l ++ [c]) = stripChars l := by
  unfold stripChars
  cases hd : l.dropWhile pyIsSpace with
  | nil =>
    rw [dropWhile_append_of_eq_nil _ hd]
    simp [List.dropWhile_cons, h]
  | cons a t =>
    rw [dropWhile_append_of_eq_cons _ hd]
    rw [show a :: t ++ [c] = (a :: t) ++ [c] by simp]
    exact rstrip_concat_true h

theorem strip_of_stripped_cons {a : Char} {l : List Char}
    (hl : stripChars l = l) (hasp : pyIsSpace a = true) :
    stripChars (a :: l) = l := by
  have h1 : stripChars (a :: l) = stripChars l := by
    unfold stripChars
    simp [List.dropWhile_cons, hasp]
  rw [h1, hl]

/-! ## Lemmas about splitAtFirst -/

theorem splitAtFirst_eq {c : Char} {l pre post : List Char}
    (h : splitAtFirst c l = some (pre, post)) : l = pre ++ c :: post ∧ c ∉ pre := by
  induction l generalizing pre with
  | nil => simp [splitAtFirst] at h
  | cons a as ih =>
    simp only [splitAtFirst] at h
    by_cases hac : a = c
    · rw [if_pos hac] at h
      simp at h
      obtain ⟨h1, h2⟩ := h
      subst hac; subst h1; subst h2
      exact ⟨rfl, by simp⟩
    · rw [if_neg hac] at h
      cases hsp : splitAtFirst c as with
      | none => rw [hsp] at h; simp at h
      | some pr =>
        obtain ⟨p1, p2⟩ := pr
        rw [hsp] at h
        simp at h
        obtain ⟨h1, h2⟩ := h
        subst h2
        rcases ih hsp with ⟨he, hm⟩
        subst h1
        refine ⟨by simp [he], ?_⟩
        intro hmem
        rcases List.mem_cons.mp hmem with hx | hx
        · exact hac hx.symm
        · exact hm hx

theorem splitAtFirst_of_not_mem {c : Char} {l : List Char} (h : c ∉ l) :
    splitAtFirst c l = none := by
  induction l with
  | nil => rfl
  | cons a as ih =>
    unfold splitAtFirst
    rw [if_neg (by intro hac; exact h (by simp [hac]))]
    rw [ih (fun hm => h (List.mem_cons_of_mem a hm))]
    rfl

theorem splitAtFirst_append {c : Char} {pre post : List Char} (h : c ∉ pre) :
    splitAtFirst c (pre ++ c :: post) = some (pre, post) := by
  induction pre with
  | nil => simp [splitAtFirst]
  | cons a as ih =>
    have hac : a ≠ c := fun hx => h (by simp [hx])
    unfold splitAtFirst
    simp only [List.cons_append]
    rw [if_neg hac, ih (fun hm => h (List.mem_cons_of_mem a hm))]
    rfl

theorem takeWhile_middle {p : Char → Bool} {A : List Char} {b : Char} (t : List Char)
    (hA : ∀ x ∈ A, p x = true) (hb : p b = false) :
    (A ++ b :: t).takeWhile p = A ∧ (A ++ b :: t).dropWhile p = b :: t := by
  induction A with
  | nil => simp [List.takeWhile_cons, List.dropWhile_cons, hb]
  | cons a as ih =>
    have ha : p a = true := hA a (by simp)
    have has : ∀ x ∈ as, p x = true := fun x hx => hA x (by simp [hx])
    rcases ih has with ⟨h1, h2⟩
    simp only [List.cons_append, List.takeWhile_cons, List.dropWhile_cons, ha]
    simp [h1, h2]

/-! ## Lemmas about the time matcher -/

theorem expectChar_some {c : Char} {cs rest : List Char}
    (h : expectChar c cs = some rest) : cs = c :: rest := by
  cases cs with
  | nil => simp [expectChar] at h
  | cons a as =>
    simp only [expectChar] at h
    by_cases hac : a = c
    · rw [if_pos hac] at h; simp at h; rw [hac, h]
    · rw [if_neg hac] at h; simp at h

theorem expectChar_cons_self (c : Char) (rest : List Char) :
    expectChar c (c :: rest) = some rest := by
  simp [expectChar]

theorem expectChar_cons_ne {c a : Char} (rest : List Char) (h : a ≠ c) :
    expectChar c (a :: rest) = none := by
  simp [expectChar, h]

theorem expect2Digits_some {cs : List Char} {a b : Char} {rest : List Char}
    (h : expect2Digits cs = some (a, b, rest)) :
    cs = a :: b :: rest ∧ isDigitC a = true ∧ isDigitC b = true := by
  cases cs with
  | nil => simp [expect2Digits] at h
  | cons x xs =>
    cases xs with
    | nil => simp [expect2Digits] at h
    | cons y ys =>
      simp only [expect2Digits] at h
      by_cases hd : (isDigitC x && isDigitC y) = true
      · rw [if_pos hd] at h
        simp at h hd
        obtain ⟨h1, h2, h3⟩ := h
        subst h1; subst h2; subst h3
        exact ⟨rfl, hd.1, hd.2⟩
      · rw [if_neg hd] at h; simp at h

theorem expect2Digits_cons {a b : Char} (rest : List Char)
    (ha : isDigitC a = true) (hb : isDigitC b = true) :
    expect2Digits (a :: b :: rest) = some (a, b, rest) := by
  simp [expect2Digits, ha, hb]

theorem matchSecsThen_some {α : Type} {t cs : List Char}
    {k : List Char → List Char → Option α} {v : α}
    (h : matchSecsThen t cs k = some v) :
    (∃ a b rest, cs = ':' :: a :: b :: rest ∧ isDigitC a = true ∧ isDigitC b = true ∧
      k (t ++ [':', a, b]) rest = some v) ∨ k t cs = some v := by
  unfold matchSecsThen at h
  rcases orElse_eq_some_cases h with h1 | ⟨-, h2⟩
  · split at h1
    · exact absurd h1 (by simp)
    · rename_i cs1 hc
      split at h1
      · exact absurd h1 (by simp)
      · rename_i a b rest hd
        rcases expect2Digits_some hd with ⟨hcs1, ha, hb⟩
        exact Or.inl ⟨a, b, rest, by rw [expectChar_some hc, hcs1], ha, hb, h1⟩
  · exact Or.inr h2

theorem matchMinutesThen_some {α : Type} {h0 cs : List Char}
    {k : List Char → List Char → Option α} {v : α}
    (h : matchMinutesThen h0 cs k = some v) :
    ∃ a b rest, cs = ':' :: a :: b :: rest ∧ isDigitC a = true ∧ isDigitC b = true ∧
      matchSecsThen (h0 ++ [':', a, b]) rest k = some v := by
  unfold matchMinutesThen at h
  split at h
  · exact absurd h (by simp)
  · rename_i cs1 hc
    split at h
    · exact absurd h (by simp)
    · rename_i a b rest hd
      rcases expect2Digits_some hd with ⟨hcs1, ha, hb⟩
      exact ⟨a, b, rest, by rw [expectChar_some hc, hcs1], ha, hb, h⟩

theorem matchTimeThen_some {α : Type} {cs : List Char}
    {k : List Char → List Char → Option α} {v : α}
    (h : matchTimeThen cs k = some v) :
    ∃ t rest, isTimeB t = true ∧ cs = t ++ rest ∧ k t rest = some v := by
  cases cs with
  | nil => simp [matchTimeThen] at h
  | cons a rest =>
    simp only [matchTimeThen] at h
    by_cases hda : isDigitC a = true
    · rw [if_pos hda] at h
      split at h
      · rcases matchMinutesThen_some h with ⟨x, y, r, hx, -, -, -⟩
        simp at hx
      · rename_i b rest2
        by_cases hdb : isDigitC b = true
        · rw [if_pos hdb] at h
          rcases orElse_eq_some_cases h with h1 | ⟨-, h2⟩
          · rcases matchMinutesThen_some h1 with ⟨m1, m2, r3, hr, hm1, hm2, hsec⟩
            rcases matchSecsThen_some hsec with ⟨s1, s2, r4, hr4, hs1, hs2, hk⟩ | hk
            · refine ⟨[a, b, ':', m1, m2, ':', s1, s2], r4, ?_, ?_, ?_⟩
              · simp [isTimeB, hda, hdb, hm1, hm2, hs1, hs2]
              · simp [hr, hr4]
              · simpa using hk
            · refine ⟨[a, b, ':', m1, m2], r3, ?_, ?_, ?_⟩
              · simp [isTimeB, hda, hdb, hm1, hm2]
              · simp [hr]
              · simpa using hk
          · rcases matchMinutesThen_some h2 with ⟨m1, m2, r3, hr, hm1, hm2, hsec⟩
            rcases matchSecsThen_some hsec with ⟨s1, s2, r4, hr4, hs1, hs2, hk⟩ | hk
            · refine ⟨[a, ':', m1, m2, ':', s1, s2], r4, ?_, ?_, ?_⟩
              · simp [isTimeB, hda, hm1, hm2, hs1, hs2]
              · simp_all
              · simpa using hk
            · refine ⟨[a, ':', m1, m2], r3, ?_, ?_, ?_⟩
              · simp [isTimeB, hda, hm1, hm2]
              · simp_all
              · simpa using hk
        · rw [if_neg hdb] at h
          rcases matchMinutesThen_some h with ⟨m1, m2, r3, hr, hm1, hm2, hsec⟩
          rcases matchSecsThen_some hsec with ⟨s1, s2, r4, hr4, hs1, hs2, hk⟩ | hk
          · refine ⟨[a, ':', m1, m2, ':', s1, s2], r4, ?_, ?_, ?_⟩
            · simp [isTimeB, hda, hm1, hm2, hs1, hs2]
            · simp [hr, hr4]
            · simpa using hk
          · refine ⟨[a, ':', m1, m2], r3, ?_, ?_, ?_⟩
            · simp [isTimeB, hda, hm1, hm2]
            · simp [hr]
            · simpa using hk
    · rw [if_neg hda] at h
      simp at h

theorem isTimeB_shape {t : List Char} (ht : isTimeB t = true) :
    (∃ h1 m1 m2, t = [h1, ':', m1, m2] ∧
      isDigitC h1 = true ∧ isDigitC m1 = true ∧ isDigitC m2 = true) ∨
    (∃ h1 h2 m1 m2, t = [h1, h2, ':', m1, m2] ∧
      isDigitC h1 = true ∧ isDigitC h2 = true ∧ isDigitC m1 = true ∧ isDigitC m2 = true) ∨
    (∃ h1 m1 m2 s1 s2, t = [h1, ':', m1, m2, ':', s1, s2] ∧
      isDigitC h1 = true ∧ isDigitC m1 = true ∧ isDigitC m2 = true ∧
      isDigitC s1 = true ∧ isDigitC s2 = true) ∨
    (∃ h1 h2 m1 m2 s1 s2, t = [h1, h2, ':', m1, m2, ':', s1, s2] ∧
      isDigitC h1 = true ∧ isDigitC h2 = true ∧ isDigitC m1 = true ∧ isDigitC m2 = true ∧
      isDigitC s1 = true ∧ isDigitC s2 = true) := by
  rcases t with - | ⟨a, - | ⟨b, - | ⟨c, - | ⟨d, - | ⟨e, - | ⟨f, - | ⟨g, - | ⟨h8, - | ⟨i, t9⟩⟩⟩⟩⟩⟩⟩⟩⟩
  · simp [isTimeB] at ht
  · simp [isTimeB] at ht
  · simp [isTimeB] at ht
  · simp [isTimeB] at ht
  · simp [isTimeB] at ht
    obtain ⟨⟨⟨d1, hb⟩, d2⟩, d3⟩ := ht
    subst hb
    exact Or.inl ⟨a, c, d, rfl, d1, d2, d3⟩
  · simp [isTimeB] at ht
    obtain ⟨⟨⟨⟨d1, d2⟩, hc⟩, d3⟩, d4⟩ := ht
    subst hc
    exact Or.inr (Or.inl ⟨a, b, d, e, rfl, d1, d2, d3, d4⟩)
  · simp [isTimeB] at ht
  · simp [isTimeB] at ht
    obtain ⟨⟨⟨⟨⟨⟨d1, hb⟩, d2⟩, d3⟩, he⟩, d4⟩, d5⟩ := ht
    subst hb; subst he
    exact Or.inr (Or.inr (Or.inl ⟨a, c, d, f, g, rfl, d1, d2, d3, d4, d5⟩))
  · simp [isTimeB] at ht
    obtain ⟨⟨⟨⟨⟨⟨⟨d1, d2⟩, hc⟩, d3⟩, d4⟩, hf⟩, d5⟩, d6⟩ := ht
    subst hc; subst hf
    exact Or.inr (Or.inr (Or.inr ⟨a, b, d, e, g, h8, rfl, d1, d2, d3, d4, d5, d6⟩))
  · simp [isTimeB] at ht

theorem matchTimeThen_concat {α : Type} {t : List Char} {c0 : Char} {r : List Char}
    {k : List Char → List Char → Option α} {v : α}
    (ht : isTimeB t = true) (hc2 : c0 ≠ ':')
    (hk : k t (c0 :: r) = some v) : matchTimeThen (t ++ c0 :: r) k = some v := by
  have hcolon : isDigitC ':' = false := by decide
  rcases isTimeB_shape ht with ⟨h1, m1, m2, rfl, d1, d2, d3⟩ |
    ⟨h1, h2, m1, m2, rfl, d1, d2, d3, d4⟩ |
    ⟨h1, m1, m2, s1, s2, rfl, d1, d2, d3, d4, d5⟩ |
    ⟨h1, h2, m1, m2, s1, s2, rfl, d1, d2, d3, d4, d5, d6⟩ <;>
  · simp only [List.cons_append, List.nil_append]
    simp [matchTimeThen, matchMinutesThen, matchSecsThen, expectChar, expect2Digits,
      d1, d2, d3, hcolon, hc2, some_orElse_eq, none_orElse_eq, hk]
    try simp_all
    try exact hk

/-! ## Lemmas about the speaker-text suffix matcher -/

theorem matchSpeakerText_some {cs : List Char} {sp tx : String}
    (h : matchSpeakerText cs = some (sp, tx)) :
    ∃ pre post, cs = pre ++ ':' :: post ∧ (':') ∉ pre ∧ pre ≠ [] ∧ post ≠ [] ∧
      sp = String.mk (stripChars pre) ∧ tx = String.mk (stripChars post) := by
  unfold matchSpeakerText at h
  split at h
  · exact absurd h (by simp)
  · rename_i pr pre post hsp
    rcases splitAtFirst_eq hsp with ⟨he, hm⟩
    by_cases h1 : pre = []
    · rw [if_pos h1] at h; exact absurd h (by simp)
    · rw [if_neg h1] at h
      by_cases h2 : post = []
      · rw [if_pos h2] at h; exact absurd h (by simp)
      · rw [if_neg h2] at h
        simp at h
        exact ⟨pre, post, he, hm, h1, h2, h.1.symm, h.2.symm⟩

theorem matchSpeakerText_append {pre post : List Char}
    (h1 : (':') ∉ pre) (h2 : pre ≠ []) (h3 : post ≠ []) :
    matchSpeakerText (pre ++ ':' :: post) =
      some (String.mk (stripChars pre), String.mk (stripChars post)) := by
  unfold matchSpeakerText
  rw [splitAtFirst_append h1]
  simp [h2, h3]

/-! ## Character class helper lemmas -/

theorem pyIsSpace_space_true : pyIsSpace ' ' = true := by decide

theorem pyIsSpace_false_of_gt {c : Char} (h : ' ' < c) : pyIsSpace c = false := by
  simp only [pyIsSpace, Bool.or_eq_false_iff]
  refine ⟨⟨⟨⟨⟨?_, ?_⟩, ?_⟩, ?_⟩, ?_⟩, ?_⟩ <;>
    (rw [decide_eq_false_iff_not]; rintro rfl; revert h; decide)

theorem isDigitC_bounds {c : Char} (h : isDigitC c = true) : '0' ≤ c ∧ c ≤ '9' := by
  simpa [isDigitC] using h

theorem isDigitC_false_of_gt {c : Char} (h : '9' < c) : isDigitC c = false := by
  simp only [isDigitC, Bool.and_eq_false_iff]
  right
  rw [decide_eq_false_iff_not]
  exact not_le.mpr h

theorem isTimeB_head_digit {t : List Char} (ht : isTimeB t = true) :
    ∃ h1 t2, t = h1 :: t2 ∧ isDigitC h1 = true := by
  rcases isTimeB_shape ht with ⟨h1, m1, m2, rfl, d1, -⟩ | ⟨h1, h2, m1, m2, rfl, d1, -⟩ |
    ⟨h1, m1, m2, s1, s2, rfl, d1, -⟩ | ⟨h1, h2, m1, m2, s1, s2, rfl, d1, -⟩ <;>
    exact ⟨h1, _, rfl, d1⟩

/-! ## C6: a line with nothing after the colon -/

/-- C6 counterexample: the trimmed line `"Alice: "` (a speaker marker
with only whitespace after the colon) is classified as NO match — the
text capture `(.+)` requires at least one character, and the line is
stripped before matching — contradicting the claim that it matches
with empty text. -/
theorem c6_counterexample : parse_transcript_line ("Alice: ") = none := by decide

theorem char_upper_not_space {c : Char} (h1 : 'A' ≤ c) : pyIsSpace c = false :=
  pyIsSpace_false_of_gt (lt_of_lt_of_le (by decide) h1)

theorem char_upper_not_digit {c : Char} (h1 : 'A' ≤ c) : isDigitC c = false :=
  isDigitC_false_of_gt (lt_of_lt_of_le (by decide) h1)

/-- C6 as amended: a line of the form `"Name: "` — an uppercase letter
followed by letters/spaces, a colon, and nothing but whitespace — is
classified as no-match by the Line Classifier, not as a match with
empty text: every pattern's text capture requires at least one
character after stripping. -/
theorem c6_name_colon_no_match (c : Char) (cs : List Char)
    (h1 : 'A' ≤ c) (h2 : c ≤ 'Z')
    (h3 : ∀ x ∈ cs, ('a' ≤ x ∧ x ≤ 'z') ∨ ('A' ≤ x ∧ x ≤ 'Z') ∨ x = ' ') :
    parse_transcript_line (String.mk (c :: cs ++ [':', ' '])) = none := by
  have hstrip : stripChars (c :: cs ++ [':', ' ']) = c :: cs ++ [':'] := by
    have e1 : c :: cs ++ [':', ' '] = (c :: cs ++ [':']) ++ [' '] := by simp
    rw [e1, strip_concat_space (by decide)]
    exact strip_noop (show c :: (cs ++ [':']) = (c :: cs) ++ [':'] from by simp)
      (char_upper_not_space h1) (by decide)
  have hnelb : c ≠ '[' := by rintro rfl; revert h2; decide
  have hbracket : matchBracket (c :: cs ++ [':']) = none := by
    simp [matchBracket, expectChar_cons_ne (cs ++ [':']) hnelb]
  have hdash : matchDash (c :: cs ++ [':']) = none := by
    unfold matchDash matchTimeThen
    simp [char_upper_not_digit h1]
  have hnomem : ('(') ∉ c :: (cs ++ [':']) := by
    intro hmem
    rcases List.mem_cons.mp hmem with hx | hx
    · rw [← hx] at h1; revert h1; decide
    · rcases List.mem_append.mp hx with hy | hy
      · rcases h3 _ hy with ⟨ha, -⟩ | ⟨ha, -⟩ | ha <;> revert ha <;> decide
      · revert hy; decide
  have hparen : matchParen (c :: cs ++ [':']) = none := by
    simp [matchParen, splitAtFirst_of_not_mem hnomem]
  have hsimple : matchSimple (c :: cs ++ [':']) = none := by
    have hA : ∀ x ∈ cs, isSimpleNameChar x = true := by
      intro x hx
      rcases h3 x hx with ⟨ha, hb⟩ | ⟨ha, hb⟩ | ha <;>
        simp [isSimpleNameChar, pyIsSpace, ha] <;> simp_all
    have hmid := takeWhile_middle (p := isSimpleNameChar) (A := cs) (b := ':') []
      hA (by decide)
    simp [matchSimple, h1, h2, hmid.1, hmid.2, expectChar_cons_self]
  rw [parse_transcript_line]
  simp only [String.data]
  rw [hstrip]
  simp
  exact ⟨hbracket, hdash, hparen, hsimple⟩

/-- Witness for C6's amended theorem: the line `"Alice: "` is no-match. -/
theorem c6_name_colon_no_match_witness :
    parse_transcript_line (String.mk ('A' :: ['l', 'i', 'c', 'e'] ++ [':', ' '])) = none :=
  c6_name_colon_no_match 'A' ['l', 'i', 'c', 'e'] (by decide) (by decide) (by decide)

/-! ## C7: colons in speaker captures -/

theorem bracket_speaker_no_colon {l : List Char} {p : ParsedLine}
    (h : matchBracket l = some p) : (':') ∉ p.speaker.data := by
  unfold matchBracket at h
  split at h
  · exact absurd h (by simp)
  · rename_i rest hc
    rcases matchTimeThen_some h with ⟨t, r2, -, -, hk⟩
    split at hk
    · exact absurd hk (by simp)
    · rename_i rest3 hc2
      cases hsp : matchSpeakerText rest3 with
      | none => rw [hsp] at hk; exact absurd hk (by simp)
      | some pr =>
        obtain ⟨sp, tx⟩ := pr
        rw [hsp] at hk
        simp at hk
        rcases matchSpeakerText_some hsp with ⟨pre, post, -, hm, -, -, hspv, -⟩
        rw [← hk]
        simp only [hspv]
        intro hmem
        exact hm (strip_mem hmem)

theorem dash_speaker_no_colon {l : List Char} {p : ParsedLine}
    (h : matchDash l = some p) : (':') ∉ p.speaker.data := by
  unfold matchDash at h
  rcases matchTimeThen_some h with ⟨t, r2, -, -, hk⟩
  split at hk
  · exact absurd hk (by simp)
  · rename_i d rest2 hdrop
    by_cases hdc : isDashChar d = true
    · rw [if_pos hdc] at hk
      cases hsp : matchSpeakerText rest2 with
      | none => rw [hsp] at hk; exact absurd hk (by simp)
      | some pr =>
        obtain ⟨sp, tx⟩ := pr
        rw [hsp] at hk
        simp at hk
        rcases matchSpeakerText_some hsp with ⟨pre, post, -, hm, -, -, hspv, -⟩
        rw [← hk]
        simp only [hspv]
        intro hmem
        exact hm (strip_mem hmem)
    · rw [if_neg hdc] at hk
      exact absurd hk (by simp)

theorem simple_speaker_no_colon {l : List Char} {p : ParsedLine}
    (h : matchSimple l = some p) : (':') ∉ p.speaker.data := by
  cases l with
  | nil => simp [matchSimple] at h
  | cons a rest =>
    simp only [matchSimple] at h
    by_cases hAZ : ('A' ≤ a && a ≤ 'Z') = true
    · rw [if_pos hAZ] at h
      split at h
      · exact absurd h (by simp)
      · rename_i rest3 hc
        by_cases hrun : rest.takeWhile isSimpleNameChar = []
        · rw [if_pos hrun] at h
          exact absurd h (by simp)
        · rw [if_neg hrun] at h
          by_cases hr3 : rest3 = []
          · rw [if_pos hr3] at h
            exact absurd h (by simp)
          · rw [if_neg hr3] at h
            simp at h
            rw [← h]
            simp only []
            intro hmem
            have hmem2 := strip_mem hmem
            rcases List.mem_cons.mp hmem2 with hx | hx
            · simp at hAZ
              rw [← hx] at hAZ
              exact absurd hAZ.1 (by decide)
            · have := mem_takeWhile_sat hx
              revert this
              decide
    · rw [if_neg hAZ] at h
      exact absurd h (by simp)

/-- C7 counterexample: the line `"A:B (00:05): hi"` is matched (by the
parenthesized-timestamp pattern, whose speaker capture `[^(]+` admits
colons) with speaker `"A:B"`, which contains a colon — contradicting
the claim that the speaker of every matched line, under every pattern,
is colon-free. -/
theorem c7_counterexample :
    parse_transcript_line ("A:B (00:05): hi") =
      some ⟨("00:05"), ("A:B"), ("hi")⟩ ∧
    (':') ∈ (("A:B") : String).data := by
  exact ⟨by decide, by decide⟩

/-- C7 as amended: under the bracket-timestamp, dash-timestamp and
simple-speaker patterns the returned speaker contains no colon (their
captures are `[^:]+` or `[A-Z][a-zA-Z\s]+`); the parenthesized
-timestamp pattern's capture `[^(]+` can return a speaker containing
colons. -/
theorem c7_speaker_no_colon_nonparen (l : List Char) (p : ParsedLine)
    (h : matchBracket l = some p ∨ matchDash l = some p ∨ matchSimple l = some p) :
    (':') ∉ p.speaker.data := by
  rcases h with h | h | h
  · exact bracket_speaker_no_colon h
  · exact dash_speaker_no_colon h
  · exact simple_speaker_no_colon h

/-- Witness for C7's amended theorem: a concrete bracket-pattern
match has a colon-free speaker. -/
theorem c7_speaker_no_colon_nonparen_witness :
    (':') ∉ (ParsedLine.mk ("00:00") ("Alice") ("hi")).speaker.data :=
  c7_speaker_no_colon_nonparen (("[00:00] Alice: hi").data)
    (ParsedLine.mk ("00:00") ("Alice") ("hi")) (Or.inl (by decide))

/-! ## C8: which dash characters the dash-timestamp pattern accepts -/

/-- C8 counterexample: a line whose delimiter is a real en-dash
(U+2013) is NOT matched at all — the character class in parser.py is
the mojibake `[-â€“]` (hyphen, U+00E2, U+20AC, U+201C), which contains
neither the en-dash nor the em-dash — contradicting the claim that
en-dash and em-dash delimited lines are matched by the dash pattern. -/
theorem c8_counterexample : parse_transcript_line ("0:05 – Bob: hi") = none := by
  decide

/-- C8 as amended: every line `<time> <dash> <speaker>: <text>` whose
delimiter is the ASCII hyphen or one of the three mojibake characters
`â`/`€`/`“` (the double-encoded remnant of an intended en-dash) is
matched by the dash-timestamp pattern with the time read as the
timestamp; the real en-dash and em-dash are not accepted. -/
theorem c8_dash_line_matches (t sp tx0 : List Char) (a d : Char)
    (ht : isTimeB t = true)
    (hd : d = '-' ∨ d = 'â' ∨ d = '€' ∨ d = '“')
    (hsp : sp ≠ []) (hspc : (':') ∉ sp) (ha : pyIsSpace a = false) :
    parse_transcript_line
        (String.mk (t ++ (' ' :: d :: ' ' :: (sp ++ (':' :: ' ' :: (tx0 ++ [a]))))))
      = some ⟨String.mk t, String.mk (stripChars sp), String.mk (stripChars (tx0 ++ [a]))⟩ := by
  have hdsp : pyIsSpace d = false := by
    rcases hd with rfl | rfl | rfl | rfl <;> decide
  have hdash : isDashChar d = true := by
    rcases hd with rfl | rfl | rfl | rfl <;> decide
  -- stripping leaves the line unchanged
  have hstrip : stripChars (t ++ (' ' :: d :: ' ' :: (sp ++ (':' :: ' ' :: (tx0 ++ [a])))))
      = t ++ (' ' :: d :: ' ' :: (sp ++ (':' :: ' ' :: (tx0 ++ [a])))) := by
    obtain ⟨h1, t2, rfl, hdig⟩ := isTimeB_head_digit ht
    have hh1sp : pyIsSpace h1 = false :=
      pyIsSpace_false_of_gt (lt_of_lt_of_le (by decide) (isDigitC_bounds hdig).1)
    rw [List.cons_append]
    exact strip_noop
      (show h1 :: (t2 ++ (' ' :: d :: ' ' :: (sp ++ (':' :: ' ' :: (tx0 ++ [a])))))
          = (h1 :: (t2 ++ (' ' :: d :: ' ' :: (sp ++ (':' :: ' ' :: tx0))))) ++ [a]
        from by simp) hh1sp ha
  -- the speaker/text suffix
  have hsptx : matchSpeakerText (' ' :: (sp ++ (':' :: ' ' :: (tx0 ++ [a]))))
      = some (String.mk (stripChars sp), String.mk (stripChars (tx0 ++ [a]))) := by
    have hpre : (':') ∉ ' ' :: sp := by
      intro hmem
      rcases List.mem_cons.mp hmem with hx | hx
      · revert hx; decide
      · exact hspc hx
    have e2 : ' ' :: (sp ++ (':' :: ' ' :: (tx0 ++ [a])))
        = (' ' :: sp) ++ (':' :: (' ' :: (tx0 ++ [a]))) := by simp
    rw [e2, matchSpeakerText_append hpre (by simp) (by simp)]
    rw [strip_cons_space, strip_cons_space]
  -- the dash matcher succeeds
  have hdashm : matchDash (t ++ (' ' :: d :: ' ' :: (sp ++ (':' :: ' ' :: (tx0 ++ [a])))))
      = some ⟨String.mk t, String.mk (stripChars sp),
          String.mk (stripChars (tx0 ++ [a]))⟩ := by
    unfold matchDash
    refine matchTimeThen_concat ht (by decide) ?_
    simp [List.dropWhile_cons, pyIsSpace_space_true, hdsp, hdash, hsptx]
  -- the bracket matcher fails
  have hbracket : matchBracket (t ++ (' ' :: d :: ' ' :: (sp ++ (':' :: ' ' :: (tx0 ++ [a])))))
      = none := by
    obtain ⟨h1, t2, rfl, hdig⟩ := isTimeB_head_digit ht
    have hh1lb : h1 ≠ '[' := by
      intro hx
      rw [hx] at hdig
      exact absurd hdig (by decide)
    rw [List.cons_append]
    unfold matchBracket
    rw [expectChar_cons_ne _ hh1lb]
  rw [parse_transcript_line]
  simp only [String.data]
  rw [hstrip]
  rw [if_neg (by simp)]
  rw [hbracket, none_orElse_eq, hdashm, some_orElse_eq]

/-- Witness for C8's amended theorem: a concrete hyphen-delimited line
is matched with the time as the timestamp. -/
theorem c8_dash_line_matches_witness :
    parse_transcript_line
        (String.mk (['0', ':', '0', '5'] ++ (' ' :: '-' :: ' ' :: (['B', 'o', 'b']
          ++ (':' :: ' ' :: (['h'] ++ ['i']))))))
      = some ⟨String.mk ['0', ':', '0', '5'], String.mk (stripChars ['B', 'o', 'b']),
          String.mk (stripChars (['h'] ++ ['i']))⟩ :=
  c8_dash_line_matches ['0', ':', '0', '5'] ['B', 'o', 'b'] ['h'] 'i' '-'
    (by decide) (Or.inl rfl) (by decide) (by decide) (by decide)

/-! ## C4 machinery: structure of every successful match -/

theorem isTimeB_chars {t : List Char} (ht : isTimeB t = true) :
    ∀ x ∈ t, isDigitC x = true ∨ x = ':' := by
  rcases isTimeB_shape ht with ⟨h1, m1, m2, rfl, d1, d2, d3⟩ |
    ⟨h1, h2, m1, m2, rfl, d1, d2, d3, d4⟩ |
    ⟨h1, m1, m2, s1, s2, rfl, d1, d2, d3, d4, d5⟩ |
    ⟨h1, h2, m1, m2, s1, s2, rfl, d1, d2, d3, d4, d5, d6⟩ <;>
  · intro x hx
    simp at hx
    rcases hx with rfl | rfl | rfl | rfl | rfl | rfl | rfl | rfl <;>
      first
        | exact Or.inl (by assumption)
        | exact Or.inr rfl

theorem isTimeB_no_newline {t : List Char} (ht : isTimeB t = true) : ('\n') ∉ t := by
  intro hmem
  rcases isTimeB_chars ht _ hmem with hx | hx
  · exact absurd hx (by decide)
  · exact absurd hx (by decide)

/-- Structure of a successful bracket-pattern match: the timestamp is
in time format, the speaker is the stripped part before the first colon
after the bracket (all its characters come from the line), and the text
is the stripped non-empty suffix after that colon. -/
theorem matchBracket_parts {l : List Char} {p : ParsedLine}
    (h : matchBracket l = some p) :
    ∃ sub post pre0, isTimeB p.timestamp.data = true ∧
      p.speaker.data = stripChars sub ∧ (∀ x ∈ sub, x ∈ l) ∧
      p.text.data = stripChars post ∧ post ≠ [] ∧ l = pre0 ++ post := by
  unfold matchBracket at h
  split at h
  · exact absurd h (by simp)
  · rename_i rest hc
    rcases matchTimeThen_some h with ⟨t, r2, ht, hr, hk⟩
    split at hk
    · exact absurd hk (by simp)
    · rename_i rest3 hc2
      cases hsp : matchSpeakerText rest3 with
      | none => rw [hsp] at hk; exact absurd hk (by simp)
      | some pr =>
        obtain ⟨sp, tx⟩ := pr
        rw [hsp] at hk
        simp at hk
        rcases matchSpeakerText_some hsp with ⟨pre, post, hr3, hm, -, hpost, hspv, htxv⟩
        have hl : l = '[' :: (t ++ (']' :: (pre ++ ':' :: post))) := by
          rw [expectChar_some hc, hr, expectChar_some hc2, hr3]
        refine ⟨pre, post, '[' :: (t ++ (']' :: (pre ++ [':']))), ?_, ?_, ?_, ?_, hpost, ?_⟩
        · rw [← hk]; exact ht
        · rw [← hk]; simp [hspv]
        · intro x hx
          rw [hl]
          simp [hx]
        · rw [← hk]; simp [htxv]
        · rw [hl]; simp

/-- Structure of a successful dash-pattern match. -/
theorem matchDash_parts {l : List Char} {p : ParsedLine}
    (h : matchDash l = some p) :
    ∃ sub post pre0, isTimeB p.timestamp.data = true ∧
      p.speaker.data = stripChars sub ∧ (∀ x ∈ sub, x ∈ l) ∧
      p.text.data = stripChars post ∧ post ≠ [] ∧ l = pre0 ++ post := by
  unfold matchDash at h
  rcases matchTimeThen_some h with ⟨t, r2, ht, hr, hk⟩
  split at hk
  · exact absurd hk (by simp)
  · rename_i d rest2 hdrop
    by_cases hdc : isDashChar d = true
    · rw [if_pos hdc] at hk
      cases hsp : matchSpeakerText rest2 with
      | none => rw [hsp] at hk; exact absurd hk (by simp)
      | some pr =>
        obtain ⟨sp, tx⟩ := pr
        rw [hsp] at hk
        simp at hk
        rcases matchSpeakerText_some hsp with ⟨pre, post, hr3, hm, -, hpost, hspv, htxv⟩
        have hr2 : r2 = r2.takeWhile pyIsSpace ++ (d :: (pre ++ ':' :: post)) := by
          conv_lhs => rw [← List.takeWhile_append_dropWhile (p := pyIsSpace) (l := r2)]
          rw [hdrop, hr3]
        have hl : l = t ++ (r2.takeWhile pyIsSpace ++ (d :: (pre ++ ':' :: post))) := by
          rw [hr, ← hr2]
        refine ⟨pre, post, t ++ (r2.takeWhile pyIsSpace ++ (d :: (pre ++ [':']))),
          ?_, ?_, ?_, ?_, hpost, ?_⟩
        · rw [← hk]; exact ht
        · rw [← hk]; simp [hspv]
        · intro x hx
          rw [hl]
          simp [hx]
        · rw [← hk]; simp [htxv]
        · rw [hl]; simp
    · rw [if_neg hdc] at hk
      exact absurd hk (by simp)

/-- Structure of a successful paren-pattern match. -/
theorem matchParen_parts {l : List Char} {p : ParsedLine}
    (h : matchParen l = some p) :
    ∃ sub post pre0, isTimeB p.timestamp.data = true ∧
      p.speaker.data = stripChars sub ∧ (∀ x ∈ sub, x ∈ l) ∧
      p.text.data = stripChars post ∧ post ≠ [] ∧ l = pre0 ++ post := by
  unfold matchParen at h
  split at h
  · exact absurd h (by simp)
  · rename_i pr pre1 post1 hsp
    by_cases hp1 : pre1 = []
    · rw [if_pos hp1] at h
      exact absurd h (by simp)
    · rw [if_neg hp1] at h
      rcases matchTimeThen_some h with ⟨t, r2, ht, hr, hk⟩
      split at hk
      · exact absurd hk (by simp)
      · rename_i r3 hcp
        split at hk
        · exact absurd hk (by simp)
        · rename_i rest2 hcc
          by_cases hr2 : rest2 = []
          · rw [if_pos hr2] at hk
            exact absurd hk (by simp)
          · rw [if_neg hr2] at hk
            simp at hk
            have hl : l = pre1 ++ ('(' :: (t ++ (')' :: ':' :: rest2))) := by
              rw [(splitAtFirst_eq hsp).1, hr, expectChar_some hcp, expectChar_some hcc]
            refine ⟨pre1, rest2, pre1 ++ ('(' :: (t ++ [')', ':'])), ?_, ?_, ?_, ?_, hr2, ?_⟩
            · rw [← hk]; exact ht
            · rw [← hk]
            · intro x hx
              rw [hl]
              simp [hx]
            · rw [← hk]
            · rw [hl]; simp

/-- Structure of a successful simple-speaker match (timestamp is the
`"00:00"` sentinel). -/
theorem matchSimple_parts {l : List Char} {p : ParsedLine}
    (h : matchSimple l = some p) :
    ∃ sub post pre0, isTimeB p.timestamp.data = true ∧
      p.speaker.data = stripChars sub ∧ (∀ x ∈ sub, x ∈ l) ∧
      p.text.data = stripChars post ∧ post ≠ [] ∧ l = pre0 ++ post := by
  cases l with
  | nil => simp [matchSimple] at h
  | cons a rest =>
    simp only [matchSimple] at h
    by_cases hAZ : ('A' ≤ a && a ≤ 'Z') = true
    · rw [if_pos hAZ] at h
      split at h
      · exact absurd h (by simp)
      · rename_i rest3 hc
        by_cases hrun : rest.takeWhile isSimpleNameChar = []
        · rw [if_pos hrun] at h
          exact absurd h (by simp)
        · rw [if_neg hrun] at h
          by_cases hr3 : rest3 = []
          · rw [if_pos hr3] at h
            exact absurd h (by simp)
          · rw [if_neg hr3] at h
            simp at h
            have hl : a :: rest
                = a :: (rest.takeWhile isSimpleNameChar ++ (':' :: rest3)) := by
              conv_lhs =>
                rw [← List.takeWhile_append_dropWhile (p := isSimpleNameChar) (l := rest)]
              rw [expectChar_some hc]
            refine ⟨a :: rest.takeWhile isSimpleNameChar, rest3,
              a :: (rest.takeWhile isSimpleNameChar ++ [':']), ?_, ?_, ?_, ?_, hr3, ?_⟩
            · rw [← h]
              exact (by decide : isTimeB (("00:00") : String).data = true)
            · rw [← h]
            · intro x hx
              rcases List.mem_cons.mp hx with hx | hx
              · simp [hx]
              · exact List.mem_cons_of_mem a (mem_takeWhile_mem hx)
            · rw [← h]
            · rw [hl]; simp
    · rw [if_neg hAZ] at h
      exact absurd h (by simp)

/-! ## C4 machinery: the splitter, and non-emptiness of stripped text -/

theorem splitNL_ne_nil (cs : List Char) : splitNL cs ≠ [] := by
  cases cs with
  | nil => simp [splitNL]
  | cons c rest =>
    simp only [splitNL]
    by_cases hc : c = '\n'
    · simp [hc]
    · rw [if_neg hc]
      cases splitNL rest with
      | nil => simp
      | cons l ls => simp

theorem splitNL_no_newline (cs : List Char) : ∀ l ∈ splitNL cs, ('\n') ∉ l := by
  induction cs with
  | nil =>
    intro l hl
    simp [splitNL] at hl
    simp [hl]
  | cons c rest ih =>
    intro l hl
    simp only [splitNL] at hl
    by_cases hc : c = '\n'
    · rw [if_pos hc] at hl
      rcases List.mem_cons.mp hl with h0 | h0
      · simp [h0]
      · exact ih l h0
    · rw [if_neg hc] at hl
      cases hsp : splitNL rest with
      | nil => exact absurd hsp (splitNL_ne_nil rest)
      | cons m ms =>
        rw [hsp] at hl
        rcases List.mem_cons.mp hl with h0 | h0
        · rw [h0]
          intro hmem
          rcases List.mem_cons.mp hmem with h1 | h1
          · exact hc h1.symm
          · exact ih m (by rw [hsp]; simp) h1
        · exact ih l (by rw [hsp]; simp [h0])

theorem splitNL_of_no_newline {l : List Char} (h : ('\n') ∉ l) : splitNL l = [l] := by
  induction l with
  | nil => rfl
  | cons c rest ih =>
    have hc : c ≠ '\n' := fun hx => h (by simp [hx])
    have hrest : ('\n') ∉ rest := fun hx => h (by simp [hx])
    simp only [splitNL]
    rw [if_neg hc, ih hrest]

theorem splitNL_append_newline {l : List Char} (rest : List Char) (h : ('\n') ∉ l) :
    splitNL (l ++ '\n' :: rest) = l :: splitNL rest := by
  induction l with
  | nil => simp [splitNL]
  | cons c cl ih =>
    have hc : c ≠ '\n' := fun hx => h (by simp [hx])
    have hcl : ('\n') ∉ cl := fun hx => h (by simp [hx])
    simp only [List.cons_append, splitNL, List.append_eq]
    rw [if_neg hc, ih hcl]

theorem splitNL_joinNL (ls : List (List Char)) (hne : ls ≠ [])
    (h : ∀ l ∈ ls, ('\n') ∉ l) : splitNL (joinNL ls) = ls := by
  induction ls with
  | nil => exact absurd rfl hne
  | cons l rest ih =>
    cases rest with
    | nil => exact splitNL_of_no_newline (h l (by simp))
    | cons r rs =>
      show splitNL (l ++ '\n' :: joinNL (r :: rs)) = l :: (r :: rs)
      rw [splitNL_append_newline _ (h l (by simp))]
      rw [ih (by simp) (fun m hm => h m (by simp [hm]))]

theorem rstrip_ne_nil {a : Char} {t : List Char} (ha : pyIsSpace a = false) :
    rstripChars (a :: t) ≠ [] := by
  intro h0
  rcases rstrip_decomp (a :: t) with ⟨ws, hw, hall⟩
  rw [h0] at hw
  simp at hw
  have := hall a (by rw [← hw]; simp)
  rw [this] at ha
  exact absurd ha (by simp)

theorem strip_concat_ne_nil {P : List Char} {b : Char} (hb : pyIsSpace b = false) :
    stripChars (P ++ [b]) ≠ [] := by
  unfold stripChars
  cases hd : (P ++ [b]).dropWhile pyIsSpace with
  | nil =>
    exfalso
    cases hd2 : P.dropWhile pyIsSpace with
    | nil =>
      rw [dropWhile_append_of_eq_nil _ hd2] at hd
      simp [List.dropWhile_cons, hb] at hd
    | cons x xs =>
      rw [dropWhile_append_of_eq_cons _ hd2] at hd
      simp at hd
  | cons x xs =>
    exact rstrip_ne_nil (dropWhile_head_false hd)

/-- The facts `parse_line` guarantees about a parsed line, shared by
the four pattern cases. -/
theorem good_from_parts {line : String} {p : ParsedLine}
    (hnl : ('\n') ∉ line.data)
    (hparts : ∃ sub post pre0, isTimeB p.timestamp.data = true ∧
      p.speaker.data = stripChars sub ∧ (∀ x ∈ sub, x ∈ stripChars line.data) ∧
      p.text.data = stripChars post ∧ post ≠ [] ∧ stripChars line.data = pre0 ++ post) :
    isTimeB p.timestamp.data = true ∧
    stripChars p.speaker.data = p.speaker.data ∧ ('\n') ∉ p.speaker.data ∧
    stripChars p.text.data = p.text.data ∧ p.text.data ≠ [] ∧ ('\n') ∉ p.text.data := by
  obtain ⟨sub, post, pre0, ht, hsp, hsub, htx, hpne, hsplit⟩ := hparts
  have hln : ∀ x ∈ stripChars line.data, x ∈ line.data := fun x hx => strip_mem hx
  refine ⟨ht, ?_, ?_, ?_, ?_, ?_⟩
  · rw [hsp]; exact strip_idem sub
  · rw [hsp]
    intro hmem
    exact hnl (hln _ (hsub _ (strip_mem hmem)))
  · rw [htx]; exact strip_idem post
  · rw [htx]
    -- the last character of the stripped line is non-space and belongs to post
    obtain ⟨P, b, hP⟩ : ∃ P b, post = P ++ [b] := by
      rcases List.eq_nil_or_concat post with h0 | ⟨P, b, h0⟩
      · exact absurd h0 hpne
      · exact ⟨P, b, by rw [h0, List.concat_eq_append]⟩
    have hlx : stripChars line.data = (pre0 ++ P) ++ [b] := by
      rw [hsplit, hP, List.append_assoc]
    have hlast : pyIsSpace b = false := strip_last_false hlx
    rw [hP]
    exact strip_concat_ne_nil hlast
  · rw [htx]
    intro hmem
    have h1 : ('\n') ∈ post := strip_mem hmem
    have h2 : ('\n') ∈ stripChars line.data := by
      rw [hsplit]
      simp [h1]
    exact hnl (hln _ h2)

/-- Every successfully parsed line yields a well-formed
(speaker, timestamp, text) triple: timestamp in time format, speaker
and text stripped and newline-free, text non-empty. -/
theorem parse_line_good {line : String} {p : ParsedLine}
    (h : parse_transcript_line line = some p) (hnl : ('\n') ∉ line.data) :
    isTimeB p.timestamp.data = true ∧
    stripChars p.speaker.data = p.speaker.data ∧ ('\n') ∉ p.speaker.data ∧
    stripChars p.text.data = p.text.data ∧ p.text.data ≠ [] ∧ ('\n') ∉ p.text.data := by
  by_cases hl0 : stripChars line.data = []
  · rw [parse_transcript_line] at h
    simp [hl0] at h
  · rw [parse_transcript_line] at h
    have h4 : (matchBracket (stripChars line.data) <|> matchDash (stripChars line.data) <|>
        matchParen (stripChars line.data) <|> matchSimple (stripChars line.data)) = some p := by
      simpa [hl0] using h
    rcases orElse_eq_some_cases h4 with hm | ⟨-, h5⟩
    · exact good_from_parts hnl (matchBracket_parts hm)
    rcases orElse_eq_some_cases h5 with hm | ⟨-, h6⟩
    · exact good_from_parts hnl (matchDash_parts hm)
    rcases orElse_eq_some_cases h6 with hm | ⟨-, h7⟩
    · exact good_from_parts hnl (matchParen_parts hm)
    · exact good_from_parts hnl (matchSimple_parts h7)

theorem string_data_append (s t : String) : (s ++ t).data = s.data ++ t.data := rfl

/-- Invariant of the scanning loop: every segment it ever produces is
well-formed, provided the carried speaker/timestamp are. -/
theorem buildSegs_good (lines : List String) (acc : List TranscriptSegment)
    (curSp curTs : String)
    (hlines : ∀ l ∈ lines, ('\n') ∉ l.data)
    (hacc : ∀ g ∈ acc, GoodSeg g)
    (hspS : stripChars curSp.data = curSp.data) (hspN : ('\n') ∉ curSp.data)
    (hts : isTimeB curTs.data = true) :
    ∀ g ∈ buildSegs lines acc curSp curTs, GoodSeg g := by
  induction lines generalizing acc curSp curTs with
  | nil =>
    intro g hg
    simp only [buildSegs] at hg
    exact hacc g (List.mem_reverse.mp hg)
  | cons line rest ih =>
    intro g hg
    have hline := hlines line (by simp)
    have hrest : ∀ l ∈ rest, ('\n') ∉ l.data := fun l hl => hlines l (by simp [hl])
    simp only [buildSegs] at hg
    cases hp : parse_transcript_line line with
    | some p =>
      rw [hp] at hg
      obtain ⟨g1, g2, g3, g4, g5, g6⟩ := parse_line_good hp hline
      refine ih (⟨p.speaker, p.timestamp, p.text⟩ :: acc) p.speaker p.timestamp
        hrest ?_ g2 g3 g1 g hg
      intro g2h hg2
      rcases List.mem_cons.mp hg2 with h0 | h0
      · rw [h0]; exact ⟨g1, g2, g4, g5, g3, g6⟩
      · exact hacc g2h h0
    | none =>
      rw [hp] at hg
      by_cases hb : stripChars line.data = []
      · rw [if_pos hb] at hg
        exact ih acc curSp curTs hrest hacc hspS hspN hts g hg
      · rw [if_neg hb] at hg
        cases acc with
        | nil =>
          refine ih [⟨curSp, curTs, String.mk (stripChars line.data)⟩] curSp curTs
            hrest ?_ hspS hspN hts g hg
          intro g2h hg2
          simp at hg2
          rw [hg2]
          refine ⟨hts, hspS, ?_, hb, hspN, ?_⟩
          · exact strip_idem line.data
          · intro hmem
            exact hline (strip_mem hmem)
        | cons last others =>
          have hlast := hacc last (by simp)
          obtain ⟨l1, l2, l3, l4, l5, l6⟩ := hlast
          -- the appended text stays stripped, non-empty, newline-free
          obtain ⟨a0, A0, hA0⟩ : ∃ a0 A0, last.text.data = a0 :: A0 := by
            cases hA : last.text.data with
            | nil => exact absurd hA l4
            | cons x xs => exact ⟨x, xs, rfl⟩
          have ha0 : pyIsSpace a0 = false := strip_head_false (by rw [l3, hA0])
          obtain ⟨P, b, hPb⟩ : ∃ P b, stripChars line.data = P ++ [b] := by
            rcases List.eq_nil_or_concat (stripChars line.data) with h0 | ⟨P, b, h0⟩
            · exact absurd h0 hb
            · exact ⟨P, b, by rw [h0, List.concat_eq_append]⟩
          have hbns : pyIsSpace b = false := strip_last_false hPb
          have hcomb : (last.text ++ (" ") ++ String.mk (stripChars line.data)).data
              = last.text.data ++ (' ' :: stripChars line.data) := by
            rw [string_data_append, string_data_append]
            simp
          have hcombStripped :
              stripChars (last.text.data ++ (' ' :: stripChars line.data))
                = last.text.data ++ (' ' :: stripChars line.data) := by
            rw [hA0, hPb]
            exact strip_noop
              (show a0 :: (A0 ++ (' ' :: (P ++ [b])))
                  = (a0 :: (A0 ++ (' ' :: P))) ++ [b] from by simp) ha0 hbns
          refine ih ({ last with
              text := last.text ++ (" ") ++ String.mk (stripChars line.data) } :: others)
            curSp curTs hrest ?_ hspS hspN hts g hg
          intro g2h hg2
          rcases List.mem_cons.mp hg2 with h0 | h0
          · rw [h0]
            refine ⟨l1, l2, ?_, ?_, l5, ?_⟩
            · rw [hcomb]
              exact hcombStripped
            · rw [hcomb]
              simp
            · rw [hcomb]
              intro hmem
              rcases List.mem_append.mp hmem with hm | hm
              · exact l6 hm
              · rcases List.mem_cons.mp hm with hm2 | hm2
                · revert hm2; decide
                · exact hline (strip_mem hm2)
          · exact hacc g2h (List.mem_cons_of_mem _ h0)

/-- Every segment the Segment Builder produces is well-formed. -/
theorem parse_transcript_good (raw : String) :
    ∀ g ∈ parse_transcript raw, GoodSeg g := by
  refine buildSegs_good _ _ _ _ ?_ ?_ ?_ ?_ ?_
  · intro l hl
    rcases List.mem_map.mp hl with ⟨x, hx, rfl⟩
    exact splitNL_no_newline raw.data x hx
  · intro g hg
    simp at hg
  · decide
  · decide
  · decide

/-- Re-parsing the canonical line of a well-formed segment whose
speaker is colon-free recovers exactly the segment's fields (via the
bracket-timestamp pattern). -/
theorem reparse_line {g : TranscriptSegment} (hg : GoodSeg g)
    (hc : (':') ∉ g.speaker.data) :
    parse_transcript_line (String.mk (formatLineChars g))
      = some ⟨g.timestamp, g.speaker, g.text⟩ := by
  obtain ⟨ht, hspS, htxS, htxNe, hspN, htxN⟩ := hg
  obtain ⟨P, b, hPb⟩ : ∃ P b, g.text.data = P ++ [b] := by
    rcases List.eq_nil_or_concat g.text.data with h0 | ⟨P, b, h0⟩
    · exact absurd h0 htxNe
    · exact ⟨P, b, by rw [h0, List.concat_eq_append]⟩
  have hb : pyIsSpace b = false := strip_last_false (by rw [htxS]; exact hPb)
  have hform : formatLineChars g
      = '[' :: (g.timestamp.data
          ++ (']' :: ' ' :: (g.speaker.data ++ (':' :: ' ' :: g.text.data)))) := by
    unfold formatLineChars
    simp
  have hshape : '[' :: (g.timestamp.data
      ++ (']' :: ' ' :: (g.speaker.data ++ (':' :: ' ' :: g.text.data))))
      = ('[' :: (g.timestamp.data
          ++ (']' :: ' ' :: (g.speaker.data ++ (':' :: ' ' :: P))))) ++ [b] := by
    rw [hPb]
    simp
  have hstrip : stripChars (formatLineChars g) = formatLineChars g := by
    rw [hform]
    exact strip_noop hshape (by decide) hb
  have hpre : (':') ∉ ' ' :: g.speaker.data := by
    intro hmem
    rcases List.mem_cons.mp hmem with hx | hx
    · revert hx; decide
    · exact hc hx
  have hsptx : matchSpeakerText (' ' :: (g.speaker.data ++ (':' :: ' ' :: g.text.data)))
      = some (g.speaker, g.text) := by
    have e2 : ' ' :: (g.speaker.data ++ (':' :: ' ' :: g.text.data))
        = (' ' :: g.speaker.data) ++ (':' :: (' ' :: g.text.data)) := by simp
    rw [e2, matchSpeakerText_append hpre (by simp) (by simp)]
    rw [strip_cons_space, strip_cons_space, hspS, htxS]
  have hbr : matchBracket (formatLineChars g) = some ⟨g.timestamp, g.speaker, g.text⟩ := by
    rw [hform]
    unfold matchBracket
    rw [expectChar_cons_self]
    refine matchTimeThen_concat ht (by decide) ?_
    rw [expectChar_cons_self]
    simp [hsptx]
  rw [parse_transcript_line]
  simp only [String.data]
  rw [hstrip]
  rw [if_neg (by rw [hform]; simp)]
  rw [hbr, some_orElse_eq]

/-- Scanning the canonical lines of well-formed, colon-free-speaker
segments rebuilds exactly those segments. -/
theorem buildSegs_formatted (segs : List TranscriptSegment)
    (hAll : ∀ g ∈ segs, GoodSeg g ∧ (':') ∉ g.speaker.data) :
    ∀ acc curSp curTs,
      buildSegs (segs.map (fun g => String.mk (formatLineChars g))) acc curSp curTs
        = acc.reverse ++ segs := by
  induction segs with
  | nil =>
    intro acc curSp curTs
    simp [buildSegs]
  | cons g gs ih =>
    intro acc curSp curTs
    have hg := hAll g (by simp)
    have hgs : ∀ x ∈ gs, GoodSeg x ∧ (':') ∉ x.speaker.data :=
      fun x hx => hAll x (by simp [hx])
    simp only [List.map_cons, buildSegs, reparse_line hg.1 hg.2]
    rw [ih hgs (g :: acc) g.speaker g.timestamp]
    simp

theorem formatLine_no_newline {g : TranscriptSegment} (hg : GoodSeg g) :
    ('\n') ∉ formatLineChars g := by
  obtain ⟨ht, -, -, -, hspN, htxN⟩ := hg
  intro hmem
  rw [show formatLineChars g = '[' :: (g.timestamp.data
      ++ (']' :: ' ' :: (g.speaker.data ++ (':' :: ' ' :: g.text.data))))
    from by unfold formatLineChars; simp] at hmem
  rcases List.mem_cons.mp hmem with h | h
  · revert h; decide
  rcases List.mem_append.mp h with h | h
  · exact isTimeB_no_newline ht h
  rcases List.mem_cons.mp h with h | h
  · revert h; decide
  rcases List.mem_cons.mp h with h | h
  · revert h; decide
  rcases List.mem_append.mp h with h | h
  · exact hspN h
  rcases List.mem_cons.mp h with h | h
  · revert h; decide
  rcases List.mem_cons.mp h with h | h
  · revert h; decide
  · exact htxN h

/-! ## C4: round-trip stability of format-then-reparse -/

/-- C4 counterexample: the transcript `"A:B (00:05): hi"` is parsed
(by the paren pattern) to a single segment with speaker `"A:B"`;
formatting produces `"[00:05] A:B: hi"`, which re-parses (by the
bracket pattern, whose speaker capture stops at the first colon) to
speaker `"A"` and text `"B: hi"` — the round trip does not preserve
speaker and text. -/
theorem c4_counterexample :
    parse_transcript ("A:B (00:05): hi")
      = [⟨("A:B"), ("00:05"), ("hi")⟩] ∧
    parse_transcript (format_parsed_transcript (parse_transcript ("A:B (00:05): hi")))
      = [⟨("A"), ("00:05"), ("B: hi")⟩] ∧
    ([⟨("A"), ("00:05"), ("B: hi")⟩] : List TranscriptSegment)
      ≠ [⟨("A:B"), ("00:05"), ("hi")⟩] := by
  exact ⟨by decide, by decide, by decide⟩

/-- C4 as amended: for every segment sequence produced by the Segment
Builder in which no speaker contains a colon, formatting with the
Canonical Formatter and re-parsing through the Segment Builder yields
exactly the original segments (speaker, timestamp and text all equal).
A speaker containing a colon — possible only through the parenthesized
-timestamp pattern — breaks the round trip. -/
theorem c4_roundtrip (raw : String)
    (h : ∀ seg ∈ parse_transcript raw, (':') ∉ seg.speaker.data) :
    parse_transcript (format_parsed_transcript (parse_transcript raw))
      = parse_transcript raw := by
  have hgood := parse_transcript_good raw
  cases hs : parse_transcript raw with
  | nil => decide
  | cons g gs =>
    rw [hs] at h hgood
    have hAll : ∀ x ∈ g :: gs, GoodSeg x ∧ (':') ∉ x.speaker.data :=
      fun x hx => ⟨hgood x hx, h x hx⟩
    have hnl : ∀ l ∈ (g :: gs).map formatLineChars, ('\n') ∉ l := by
      intro l hl
      rcases List.mem_map.mp hl with ⟨x, hx, rfl⟩
      exact formatLine_no_newline (hgood x hx)
    show buildSegs (((splitNL (format_parsed_transcript (g :: gs)).data).map String.mk))
        [] ("Unknown") ("00:00") = g :: gs
    have hdata : (format_parsed_transcript (g :: gs)).data
        = joinNL ((g :: gs).map formatLineChars) := rfl
    rw [hdata, splitNL_joinNL _ (by simp) hnl, List.map_map]
    exact buildSegs_formatted (g :: gs) hAll [] ("Unknown") ("00:00")

/-- Witness for C4's amended theorem: a two-line canonical transcript
(whose speakers are colon-free) round-trips exactly. -/
theorem c4_roundtrip_witness :
    parse_transcript (format_parsed_transcript (parse_transcript
        ("[00:05] Alice: hi\nBob: yes")))
      = parse_transcript ("[00:05] Alice: hi\nBob: yes") :=
  c4_roundtrip ("[00:05] Alice: hi\nBob: yes") (by decide)

/-! ## C10: falsy fallback to the raw transcript -/

theorem parse_transcript_line_of_blank (line : String)
    (h : stripChars line.data = []) : parse_transcript_line line = none := by
  simp [parse_transcript_line, h]

theorem buildSegs_of_all_blank (lines : List String)
    (h : ∀ l ∈ lines, stripChars l.data = []) (acc : List TranscriptSegment)
    (curSp curTs : String) : buildSegs lines acc curSp curTs = acc.reverse := by
  induction lines generalizing acc curSp curTs with
  | nil => rfl
  | cons line rest ih =>
    have hline : stripChars line.data = [] := h line (by simp)
    have hrest : ∀ l ∈ rest, stripChars l.data = [] := fun l hl => h l (by simp [hl])
    simp [buildSegs, parse_transcript_line_of_blank line hline, hline, ih hrest]

theorem parse_transcript_of_all_blank (raw : String)
    (h : ∀ l ∈ splitNL raw.data, stripChars l = []) : parse_transcript raw = [] := by
  have : ∀ l ∈ (splitNL raw.data).map String.mk, stripChars l.data = [] := by
    intro l hl
    rcases List.mem_map.mp hl with ⟨x, hx, rfl⟩
    exact h x hx
  simp [parse_transcript, buildSegs_of_all_blank _ this]

/-- C10: the generation-backed stages fall back to `raw_transcript` not
only when `parsed_transcript` is `None`/absent but for any falsy value,
in particular the empty string; consequently, after parsing a
transcript consisting only of blank lines (whose parse yields an empty
`parsed_transcript`), the transcript every downstream stage puts in its
prompt is the raw transcript. -/
theorem c10_falsy_fallback :
    (∀ st : AgentState,
      st.parsed_transcript = none ∨ st.parsed_transcript = some ("") →
      chosenTranscript st = st.raw_transcript) ∧
    (∀ meeting_id meeting_title raw : String,
      (∀ l ∈ splitNL raw.data, stripChars l = []) →
      (applyUpdate (initialState meeting_id meeting_title raw)
          (parser_node none (initialState meeting_id meeting_title raw))).parsed_transcript
        = some ("") ∧
      chosenTranscript (applyUpdate (initialState meeting_id meeting_title raw)
          (parser_node none (initialState meeting_id meeting_title raw))) = raw) := by
  constructor
  · intro st h
    rcases h with h | h <;> simp [chosenTranscript, h]
  · intro mid mt raw h
    have hseg : parse_transcript raw = [] := parse_transcript_of_all_blank raw h
    constructor
    · simp [applyUpdate, parser_node, initialState, hseg, format_parsed_transcript, joinNL]
    · simp [chosenTranscript, applyUpdate, parser_node, initialState, hseg,
        format_parsed_transcript, joinNL]

/-- Witness for C10 at concrete inputs: a state whose
`parsed_transcript` is the empty string falls back to the raw
transcript, and a blank-lines-only transcript parses to the empty
normalized transcript with raw fallback downstream. -/
theorem c10_falsy_fallback_witness :
    chosenTranscript { initialState ("m") ("t") ("the raw text") with
      parsed_transcript := some ("") } = ("the raw text") ∧
    (applyUpdate (initialState ("m") ("t") ("\n  \n"))
        (parser_node none (initialState ("m") ("t") ("\n  \n")))).parsed_transcript
      = some ("") ∧
    chosenTranscript (applyUpdate (initialState ("m") ("t") ("\n  \n"))
        (parser_node none (initialState ("m") ("t") ("\n  \n")))) = ("\n  \n") := by
  refine ⟨c10_falsy_fallback.1 _ (Or.inr rfl), ?_, ?_⟩
  · exact (c10_falsy_fallback.2 ("m") ("t") ("\n  \n") (by decide)).1
  · exact (c10_falsy_fallback.2 ("m") ("t") ("\n  \n") (by decide)).2

/-! ## C9: transcript truncation to 15000 characters in every prompt -/

/-- C9: each of the three generation-backed stages puts the same
at-most-15000-character prefix of the chosen transcript into the prompt
it sends to the collaborator; content beyond 15000 characters is
excluded. -/
theorem c9_prompt_truncation (st : AgentState) :
    ∃ t : String,
      summarizer_messages st =
        [ChatMessage.system SUMMARIZER_SYSTEM_PROMPT,
         ChatMessage.human (summarizer_user_message st.meeting_title (participantsField st) t)] ∧
      decisions_messages st =
        [ChatMessage.system DECISION_EXTRACTOR_SYSTEM_PROMPT,
         ChatMessage.human (decisions_user_message st.meeting_title (participantsField st) t)] ∧
      actions_messages st =
        [ChatMessage.system ACTION_ITEM_SYSTEM_PROMPT,
         ChatMessage.human (actions_user_message st.meeting_title (participantsField st) t)] ∧
      t.data.length ≤ 15000 ∧
      ∃ rest, (chosenTranscript st).data = t.data ++ rest := by
  refine ⟨pySlice (chosenTranscript st) 15000, rfl, rfl, rfl, ?_, ?_⟩
  · show ((chosenTranscript st).data.take 15000).length ≤ 15000
    rw [List.length_take]
    exact min_le_left _ _
  · exact ⟨(chosenTranscript st).data.drop 15000, (List.take_append_drop _ _).symm⟩

/-! ## C5: participants are sorted, duplicate-free, without Unknown -/

/-- C5: for every segment sequence, the derived participants list never
contains the `"Unknown"` sentinel, has no duplicates, and is sorted
ascending. -/
theorem c5_participants_clean (segs : List TranscriptSegment) :
    ("Unknown") ∉ extract_participants segs ∧
    (extract_participants segs).Nodup ∧
    List.Sorted (fun a b : String => a ≤ b) (extract_participants segs) := by
  refine ⟨?_, ?_, ?_⟩
  · intro hmem
    have h1 := (List.perm_insertionSort (fun a b : String => a ≤ b) _).mem_iff.mp hmem
    have h2 := List.mem_dedup.mp h1
    have h3 := (List.mem_filter.mp h2).2
    simp at h3
  · exact (List.perm_insertionSort (fun a b : String => a ≤ b) _).nodup_iff.mpr
      (List.nodup_dedup _)
  · exact List.sorted_insertionSort (fun a b : String => a ≤ b) _

/-! ## C1: all four stages always run; later fields always produced -/

/-- C1: the orchestrator runs all four stages for every input and an
earlier failure never skips a later stage: whatever the Parse outcome
(including failure) and whatever each collaborator returns, the final
state's `summary`, `key_topics`, `decisions` and `action_items` fields
are exactly what the Summarize, Decide and Extract-Actions stages
produce from their own collaborator outcomes (default/empty on a stage
failure, never missing). -/
theorem c1_all_stages_run (loads : String → Option JsonVal) (parseExc : Option String)
    (rS rD rA : Except String String) (meeting_id meeting_title raw : String) :
    (analyze loads parseExc (fun _ => rS) (fun _ => rD) (fun _ => rA)
        meeting_id meeting_title raw).summary
      = (match rS with | Except.ok r => some r | Except.error _ => none) ∧
    (analyze loads parseExc (fun _ => rS) (fun _ => rD) (fun _ => rA)
        meeting_id meeting_title raw).key_topics
      = (match rS with | Except.ok r => extract_key_topics r | Except.error _ => []) ∧
    (analyze loads parseExc (fun _ => rS) (fun _ => rD) (fun _ => rA)
        meeting_id meeting_title raw).decisions
      = (match rD with | Except.ok r => parse_decisions loads r | Except.error _ => []) ∧
    (analyze loads parseExc (fun _ => rS) (fun _ => rD) (fun _ => rA)
        meeting_id meeting_title raw).action_items
      = (match rA with | Except.ok r => parse_action_items loads r | Except.error _ => []) := by
  cases parseExc <;> cases rS <;> cases rD <;> cases rA <;>
    exact ⟨rfl, rfl, rfl, rfl⟩

/-! ## C2: no extractable JSON array: zero items, error NOT set -/

/-- C2 counterexample: on a collaborator response containing no `[` or
`]` at all, `decisions_node` returns zero decisions but does NOT set
`error` in its partial update (the claim asserts `error` is set; the
no-array path never raises, so the success branch returns only the
`decisions` key). The same holds for `actions_node`. -/
theorem c2_counterexample :
    (decisions_node (fun _ => none)
        (fun _ => Except.ok ("The collaborator replied in prose without any brackets"))
        (initialState ("m") ("t") ("raw"))).decisions = some [] ∧
    (decisions_node (fun _ => none)
        (fun _ => Except.ok ("The collaborator replied in prose without any brackets"))
        (initialState ("m") ("t") ("raw"))).error = none ∧
    (actions_node (fun _ => none)
        (fun _ => Except.ok ("The collaborator replied in prose without any brackets"))
        (initialState ("m") ("t") ("raw"))).action_items = some [] ∧
    (actions_node (fun _ => none)
        (fun _ => Except.ok ("The collaborator replied in prose without any brackets"))
        (initialState ("m") ("t") ("raw"))).error = none := by
  refine ⟨?_, rfl, ?_, rfl⟩ <;> decide

/-- C2 as amended: on a collaborator response from which no JSON array
can be extracted, the Decide and Extract-Actions stages produce zero
decisions / zero action items and leave `error` unset in their partial
update, and merging the update returns every previously accumulated
field intact (only the stage's own field changes). -/
theorem c2_no_array_zero_items (loads : String → Option JsonVal) (resp : String)
    (st : AgentState) (h : extract_json_array resp = none) :
    (decisions_node loads (fun _ => Except.ok resp) st).decisions = some [] ∧
    (decisions_node loads (fun _ => Except.ok resp) st).error = none ∧
    applyUpdate st (decisions_node loads (fun _ => Except.ok resp) st)
      = { st with decisions := [] } ∧
    (actions_node loads (fun _ => Except.ok resp) st).action_items = some [] ∧
    (actions_node loads (fun _ => Except.ok resp) st).error = none ∧
    applyUpdate st (actions_node loads (fun _ => Except.ok resp) st)
      = { st with action_items := [] } := by
  refine ⟨?_, rfl, ?_, ?_, rfl, ?_⟩ <;>
    simp [decisions_node, actions_node, parse_decisions, parse_action_items, h, applyUpdate]

/-- Witness for C2's amended theorem at a concrete input. -/
theorem c2_no_array_zero_items_witness :
    (decisions_node (fun _ => none) (fun _ => Except.ok ("plain prose"))
        (initialState ("m") ("t") ("raw"))).decisions = some [] ∧
    (decisions_node (fun _ => none) (fun _ => Except.ok ("plain prose"))
        (initialState ("m") ("t") ("raw"))).error = none := by
  have h := c2_no_array_zero_items (fun _ => none) ("plain prose")
    (initialState ("m") ("t") ("raw")) (by decide)
  exact ⟨h.1, h.2.1⟩

/-! ## C3: what a failing stage's partial update contains -/

/-- C3 counterexample: the failing Parse stage's partial update does
NOT set `parsed_transcript` to its default (absent/`None`); it sets it
to the raw transcript (parser.py lines 204-210). -/
theorem c3_counterexample :
    (parser_node (some ("boom"))
        (initialState ("m") ("t") ("hello world"))).parsed_transcript
      = some (some ("hello world")) ∧
    some (some ("hello world")) ≠ (some none : Option (Option String)) ∧
    (("hello world") : String) ≠ ("") := by
  refine ⟨rfl, by decide, by decide⟩

/-- C3 as amended: every failing stage's partial update sets `error` to
a message identifying the stage and cause; the Summarize, Decide and
Extract-Actions stages set their owned fields to their empty/default
values, but the Parse stage sets `parsed_transcript` to the raw
transcript (its natural fallback), not to a default — only
`participants` gets its empty default. -/
theorem c3_failure_updates (loads : String → Option JsonVal) (e : String) (st : AgentState) :
    parser_node (some e) st =
      { error := some (some (("Failed to parse transcript: ") ++ e))
        parsed_transcript := some (some st.raw_transcript)
        participants := some [] } ∧
    summarizer_node (fun _ => Except.error e) st =
      { error := some (some (("Failed to generate summary: ") ++ e))
        summary := some none
        key_topics := some [] } ∧
    decisions_node loads (fun _ => Except.error e) st =
      { error := some (some (("Failed to extract decisions: ") ++ e))
        decisions := some [] } ∧
    actions_node loads (fun _ => Except.error e) st =
      { error := some (some (("Failed to extract action items: ") ++ e))
        action_items := some [] } :=
  ⟨rfl, rfl, rfl, rfl⟩

end MeetingAnalysis
